import Mathlib

/-!
# The rotating, buffered log file sink of `glog.go`

A shallow embedding of `syncBuffer` (`glog.go`): its `Write`, `rotateFile`,
`flushAll`, `lockAndFlushAll`, `flushDaemon` and `createFiles`, running against an
explicit model of the operating system's files and of Go's `bufio.Writer`.

* Machine integers: `nbytes` is a `uint64`; every update is taken modulo `2 ^ 64`.
* I/O: the `World` holds the files in creation order, a script of pending I/O results
  (one entry consumed by each system call; an exhausted script means success) and the
  trace of the system calls made so far.
* `time.Now()` is an explicit argument of the operations that read the clock.
* `MaxSize`, `host` and the `runtime` identification strings are parameters.
-/

namespace Logging

/-! ## Bytes, time and the header text -/

abbrev Byte := UInt8

/-- The bytes of an ASCII Go string literal. -/
def ascii (s : String) : List Byte :=
  s.toList.map (fun c => UInt8.ofNat c.toNat)

/-- A wall-clock instant, as the calendar fields `time.Time.Format` reads. -/
structure Time where
  year : Nat
  month : Nat
  day : Nat
  hour : Nat
  minute : Nat
  second : Nat
deriving DecidableEq, Repr

/-- Decimal rendering of `x`, zero-padded on the left to at least `width` digits
(the helper `appendInt` of Go's `time` package, for non-negative values). -/
def appendInt (x width : Nat) : List Byte :=
  let ds := (Nat.toDigits 10 x).map (fun c => UInt8.ofNat c.toNat)
  List.replicate (width - ds.length) (UInt8.ofNat 48) ++ ds

/-- The value of `now.Format("2006/01/02 15:04:05")`. -/
def Time.Format (t : Time) : List Byte :=
  appendInt t.year 4 ++ ascii "/" ++ appendInt t.month 2 ++ ascii "/" ++ appendInt t.day 2
    ++ ascii " " ++ appendInt t.hour 2 ++ ascii ":" ++ appendInt t.minute 2
    ++ ascii ":" ++ appendInt t.second 2

/-- The process-wide strings the header prints: the package variable `host` and
`runtime.Compiler`, `runtime.Version()`, `runtime.GOOS`, `runtime.GOARCH`. -/
structure Platform where
  host : List Byte
  compiler : List Byte
  version : List Byte
  goos : List Byte
  goarch : List Byte

/-- The header block that `rotateFile` assembles in `buf` (four `Fprintf` lines). -/
def header (pf : Platform) (now : Time) : List Byte :=
  (ascii "Log file created at: " ++ now.Format ++ ascii "\n")
    ++ (ascii "Running on machine: " ++ pf.host ++ ascii "\n")
    ++ (ascii "Binary: Built with " ++ pf.compiler ++ ascii " " ++ pf.version
          ++ ascii " for " ++ pf.goos ++ ascii "/" ++ pf.goarch ++ ascii "\n")
    ++ ascii "Log line format: [IWEF]mmdd hh:mm:ss.uuuuuu threadid file:line] msg\n"

/-- Reduction of a natural number to a `uint64`. -/
def u64 (n : Nat) : Nat := n % 2 ^ 64

/-! ## The operating system: files, faults and the system-call trace -/

inductive Error where
  | createFailed
  | writeFailed
  | shortWrite
  | fileClosed
deriving DecidableEq, Repr

/-- How a call ends: it returns (with Go's `error`, `none` for `nil`), it terminates the
process through `os.Exit`, or it panics. -/
inductive Outcome where
  | returned (err : Option Error)
  | exited (code : Nat)
  | panicked
deriving DecidableEq, Repr

/-- One log file: the severity tag and timestamp its name encodes, its bytes on disk,
and whether its descriptor has been closed. -/
structure File where
  tag : String
  created : Time
  data : List Byte
  closed : Bool
deriving DecidableEq, Repr

/-- A file as it is just after its creation. -/
def File.new (tag : String) (t : Time) : File :=
  { tag := tag, created := t, data := [], closed := false }

/-- A system call, as recorded in the trace. -/
inductive Event where
  | create (h : Nat)
  | createFailed
  | write (h : Nat) (n : Nat) (ok : Bool)
  | close (h : Nat)
  | sync (h : Nat) (ok : Bool)
deriving DecidableEq, Repr

/-- The world outside the sink. `files` is in creation order and a file handle is an
index into it. `faults` scripts the next system calls: `none` lets the call succeed,
`some k` makes it fail (a write then accepts at most `k` bytes). -/
structure World where
  files : List File
  faults : List (Option Nat)
  trace : List Event
deriving DecidableEq, Repr

/-- Consume the scripted result of the next system call. -/
def World.nextFault (w : World) : Option Nat × World :=
  match w.faults with
  | [] => (none, w)
  | x :: rest => (x, { w with faults := rest })

/-- No system call fails from here on. -/
def World.Quiet (w : World) : Prop := ∀ x ∈ w.faults, x = none

instance (w : World) : Decidable w.Quiet := by
  unfold World.Quiet; infer_instance

/-- Modelled from the spec: `create(tag, now)`, whose source is not listed. It opens a
new, empty file whose name encodes the severity tag and the timestamp, and returns its
handle; on failure it returns an error and no file. -/
def create (tag : String) (t : Time) (w : World) : Except Error Nat × World :=
  let r := w.nextFault
  match r.1 with
  | some _ => (.error Error.createFailed, { r.2 with trace := r.2.trace ++ [Event.createFailed] })
  | none =>
    (.ok r.2.files.length,
      { r.2 with
        files := r.2.files ++ [File.new tag t]
        trace := r.2.trace ++ [Event.create r.2.files.length] })

namespace os

/-- The result of `(*os.File).Write`: the count of bytes accepted, the error, the world. -/
structure WriteResult where
  n : Nat
  err : Option Error
  world : World

/-- The method `(*os.File).Write`: appends to the file. Without a fault all of `bs` is
accepted; with the fault `some k` at most `k` bytes are and an error is returned. -/
def Write (w : World) (h : Nat) (bs : List Byte) : WriteResult :=
  match w.files[h]? with
  | none => { n := 0, err := some Error.fileClosed, world := w }
  | some f =>
    if f.closed then { n := 0, err := some Error.fileClosed, world := w }
    else
      let r := w.nextFault
      match r.1 with
      | none =>
        { n := bs.length, err := none,
          world := { r.2 with
            files := r.2.files.set h { f with data := f.data ++ bs }
            trace := r.2.trace ++ [Event.write h bs.length true] } }
      | some k =>
        { n := min k bs.length, err := some Error.writeFailed,
          world := { r.2 with
            files := r.2.files.set h { f with data := f.data ++ bs.take (min k bs.length) }
            trace := r.2.trace ++ [Event.write h (min k bs.length) false] } }

/-- The method `(*os.File).Close`; the sink ignores its error, and the descriptor is
released whether or not the call reports one. -/
def Close (w : World) (h : Nat) : World :=
  match w.files[h]? with
  | none => w
  | some f =>
    let r := w.nextFault
    { r.2 with
      files := r.2.files.set h { f with closed := true }
      trace := r.2.trace ++ [Event.close h] }

/-- The method `(*os.File).Sync`; the sink ignores its error. -/
def Sync (w : World) (h : Nat) : World :=
  let r := w.nextFault
  { r.2 with trace := r.2.trace ++ [Event.sync h r.1.isNone] }

end os

/-! ## Go's `bufio.Writer` -/

namespace bufio

/-- A `bufio.Writer`: the file it writes to, its capacity, the bytes it holds
(`buf[0:n]`) and its sticky error. -/
structure Writer where
  wr : Nat
  size : Nat
  buf : List Byte
  err : Option Error
deriving DecidableEq, Repr

/-- The constructor `bufio.NewWriterSize(file, size)`. -/
def NewWriterSize (h : Nat) (size : Nat) : Writer :=
  { wr := h, size := size, buf := [], err := none }

/-- The method `Available`: free space in the buffer. -/
def Writer.Available (b : Writer) : Nat := b.size - b.buf.length

/-- The statements `n := copy(b.buf[b.n:], p); b.n += n` for bytes that fit. -/
def Writer.fill (b : Writer) (bs : List Byte) : Writer :=
  { b with buf := b.buf ++ bs }

structure FlushResult where
  err : Option Error
  writer : Writer
  world : World

/-- The method `(*bufio.Writer).Flush`. -/
def Writer.Flush (b : Writer) (w : World) : FlushResult :=
  match b.err with
  | some e => { err := some e, writer := b, world := w }
  | none =>
    if b.buf.length = 0 then { err := none, writer := b, world := w }
    else
      let r := os.Write w b.wr b.buf
      let e := if r.n < b.buf.length ∧ r.err = none then some Error.shortWrite else r.err
      match e with
      | some e1 =>
        { err := some e1, writer := { b with buf := b.buf.drop r.n, err := some e1 },
          world := r.world }
      | none => { err := none, writer := { b with buf := [] }, world := r.world }

/-- The state of the copy loop of `(*bufio.Writer).Write`. -/
structure LoopState where
  writer : Writer
  world : World
  rest : List Byte
  nn : Nat

/-- The body of the loop of `(*bufio.Writer).Write`: with an empty buffer the bytes go
straight to the file; otherwise the buffer is filled up and flushed. -/
def Writer.writeStep (st : LoopState) : LoopState :=
  if st.writer.buf.length = 0 then
    -- Large write, empty buffer: write directly from p.
    let r := os.Write st.world st.writer.wr st.rest
    { writer := { st.writer with err := r.err }, world := r.world,
      rest := st.rest.drop r.n, nn := st.nn + r.n }
  else
    let n := min st.writer.Available st.rest.length
    let f := (st.writer.fill (st.rest.take n)).Flush st.world
    { writer := f.writer, world := f.world, rest := st.rest.drop n, nn := st.nn + n }

/-- The loop `for len(p) > b.Available() && b.err == nil` of `(*bufio.Writer).Write`,
run for at most `fuel` iterations. -/
def Writer.writeLoop : Nat → LoopState → LoopState
  | 0, st => st
  | fuel + 1, st =>
    if st.rest.length > st.writer.Available ∧ st.writer.err = none then
      Writer.writeLoop fuel (Writer.writeStep st)
    else st

structure WriteResult where
  n : Nat
  err : Option Error
  writer : Writer
  world : World

/-- The method `(*bufio.Writer).Write`. Every iteration of its loop either shortens what
is left of `p`, empties the buffer or sets the sticky error, so `len(p) + 2` iterations
are enough (`writeLoop_exit`). -/
def Writer.Write (b : Writer) (w : World) (p : List Byte) : WriteResult :=
  let st := Writer.writeLoop (p.length + 2) { writer := b, world := w, rest := p, nn := 0 }
  match st.writer.err with
  | some e => { n := st.nn, err := some e, writer := st.writer, world := st.world }
  | none =>
    let n := min st.writer.Available st.rest.length
    { n := st.nn + n, err := none, writer := st.writer.fill (st.rest.take n),
      world := st.world }

end bufio

/-! ## `syncBuffer` -/

/-- The struct `syncBuffer`: the embedded `*bufio.Writer`, the file, and the count of
bytes written to this file. -/
structure syncBuffer where
  Writer : Option bufio.Writer
  file : Option Nat
  nbytes : Nat
deriving DecidableEq, Repr

/-- A sink together with the world it runs in. -/
structure Sys where
  sb : syncBuffer
  world : World
deriving DecidableEq, Repr

/-- The constant `bufferSize`. -/
def bufferSize : Nat := 256 * 1024

/-- The method `syncBuffer.flushAll`: flush and sync when a file is open; both errors are
ignored. Calling `Flush` through a nil embedded `*bufio.Writer` panics. -/
def flushAll (s : Sys) : Outcome × Sys :=
  match s.sb.file with
  | none => (.returned none, s)
  | some h =>
    match s.sb.Writer with
    | none => (.panicked, s)
    | some b =>
      let f := b.Flush s.world
      (.returned none, { sb := { s.sb with Writer := some f.writer }, world := os.Sync f.world h })

/-- The method `syncBuffer.lockAndFlushAll`; its two lock calls are commented out in the
source, which leaves the call of `flushAll`. -/
def lockAndFlushAll (s : Sys) : Outcome × Sys :=
  flushAll s

/-- The method `syncBuffer.flushDaemon`, for the first `ticks` ticks of its ticker. -/
def flushDaemon : Nat → Sys → Outcome × Sys
  | 0, s => (.returned none, s)
  | ticks + 1, s =>
    match lockAndFlushAll s with
    | (.returned _, s1) => flushDaemon ticks s1
    | r => r

/-- The opening of `rotateFile`: `if sb.file != nil { sb.Flush(); sb.file.Close() }`, both
errors ignored. The result is `none` when `Flush` is called through a nil writer, which
panics. -/
def closeCurrent (s : Sys) : Option Sys :=
  match s.sb.file with
  | none => some s
  | some h =>
    match s.sb.Writer with
    | none => none
    | some b =>
      let f := b.Flush s.world
      some { sb := { s.sb with Writer := some f.writer }, world := os.Close f.world h }

/-- The method `syncBuffer.rotateFile`. -/
def rotateFile (pf : Platform) (now : Time) (s : Sys) : Outcome × Sys :=
  match closeCurrent s with
  | none => (.panicked, s)
  | some s1 =>
    -- sb.file, _, err = create("INFO", now); sb.nbytes = 0
    let c := create "INFO" now s1.world
    match c.1 with
    | .error e =>
      (.returned (some e), { sb := { s1.sb with file := none, nbytes := 0 }, world := c.2 })
    | .ok h =>
      -- sb.Writer = bufio.NewWriterSize(sb.file, bufferSize), then the header
      let r := os.Write c.2 h (header pf now)
      (.returned r.err,
        { sb := { Writer := some (bufio.NewWriterSize h bufferSize), file := some h,
                  nbytes := u64 (0 + r.n) },
          world := r.world })

/-- The steps `sb.flushAll(); os.Exit(2)`. -/
def flushAndExit (s : Sys) : Outcome × Sys :=
  match flushAll s with
  | (.panicked, s1) => (.panicked, s1)
  | (_, s1) => (.exited 2, s1)

/-- The rotation check that opens `Write`: `ok` of the state in which the method goes on
to the buffered write, or `error` of the way the call ends there (the fatal path after a
failed rotation). -/
def rotationCheck (pf : Platform) (MaxSize : Nat) (now : Time) (p : List Byte) (s : Sys) :
    Except (Outcome × Sys) Sys :=
  if u64 (s.sb.nbytes + u64 p.length) ≥ MaxSize then
    match rotateFile pf now s with
    | (.returned none, s1) => .ok s1
    | (.returned (some _), s1) => .error (flushAndExit s1)
    | (o, s1) => .error (o, s1)
  else .ok s

/-- The second half of `Write`: `n, err := sb.Writer.Write(p)`, `sb.nbytes += uint64(n)`,
and the fatal path when `err` is not nil. -/
def bufferedWrite (p : List Byte) (s : Sys) : Outcome × Sys :=
  match s.sb.Writer with
  | none => (.panicked, s)
  | some b =>
    let r := b.Write s.world p
    let s2 : Sys :=
      { sb := { s.sb with Writer := some r.writer, nbytes := u64 (s.sb.nbytes + u64 r.n) },
        world := r.world }
    match r.err with
    | some _ => flushAndExit s2
    | none => (.returned none, s2)

/-- The method `syncBuffer.Write`, with `now` the value `time.Now()` has when read. -/
def Write (pf : Platform) (MaxSize : Nat) (now : Time) (p : List Byte) (s : Sys) :
    Outcome × Sys :=
  match rotationCheck pf MaxSize now p s with
  | .error r => r
  | .ok s1 => bufferedWrite p s1

/-- The function `createFiles`, started at time `now` in the world `w`: it panics when
the first rotation fails. The flush daemon it starts is the `tick` of `Op`. -/
def createFiles (pf : Platform) (now : Time) (w : World) : Outcome × Sys :=
  match rotateFile pf now { sb := { Writer := none, file := none, nbytes := 0 }, world := w } with
  | (.returned none, s) => (.returned none, s)
  | (_, s) => (.panicked, s)

/-- What happens to a sink after `createFiles`: a caller writes, or the daemon ticks. -/
inductive Op where
  | write (now : Time) (p : List Byte)
  | tick
deriving DecidableEq, Repr

/-- One operation on the sink. -/
def step (pf : Platform) (MaxSize : Nat) (op : Op) (s : Sys) : Outcome × Sys :=
  match op with
  | .write now p => Write pf MaxSize now p s
  | .tick => lockAndFlushAll s

/-- Run operations one after another, for as long as each returns without error. -/
def run (pf : Platform) (MaxSize : Nat) : List Op → Sys → Outcome × Sys
  | [], s => (.returned none, s)
  | op :: ops, s =>
    match step pf MaxSize op s with
    | (.returned none, s1) => run pf MaxSize ops s1
    | r => r

/-- The bytes of one operation: those of a write, none for a tick. -/
def Op.bytes : Op → List Byte
  | .write _ p => p
  | .tick => []

/-- The embedded writer is there whenever a file is: the shape of every state the
methods produce, in which `Flush` is never called through a nil pointer. -/
def Sys.Attached (s : Sys) : Prop :=
  s.sb.file ≠ none → s.sb.Writer ≠ none

instance (s : Sys) : Decidable s.Attached := by
  unfold Sys.Attached; infer_instance

/-- The buffered bytes that are waiting to be written to the file `k`. -/
def Sys.buffered (s : Sys) (k : Nat) : List Byte :=
  match s.sb.Writer with
  | some b => if b.wr = k then b.buf else []
  | none => []

/-- The bytes the file `k` holds as far as the sink is concerned: those on disk, followed
by those still waiting for it in the buffer. A file that does not exist holds none. -/
def Sys.content (s : Sys) (k : Nat) : List Byte :=
  match s.world.files[k]? with
  | some f => f.data ++ s.buffered k
  | none => []

/-- The bytes of a file after its header. -/
def File.body (pf : Platform) (f : File) : List Byte :=
  f.data.drop (header pf f.created).length

/-- The contents of the files `fs`, each with its header removed, in creation order. -/
def payload (pf : Platform) (fs : List File) : List Byte :=
  (fs.map (File.body pf)).flatten

/-- The file begins with the header of its creation time. -/
def File.Headed (pf : Platform) (f : File) : Prop :=
  ∃ t, f.data = header pf f.created ++ t

/-! ## Vocabulary of the statements -/

/-- The writer `b` has no pending error and writes to the open file `f`, in a world in
which no system call fails. -/
structure Feeds (b : bufio.Writer) (w : World) (f : File) : Prop where
  quiet : w.Quiet
  err : b.err = none
  file : w.files[b.wr]? = some f
  isOpen : f.closed = false

/-- What one iteration, the whole loop and `Write` itself keep, when nothing fails: the
writer still feeds the same file, only that file has changed, by bytes `x` appended to
it, and `x` followed by the buffered bytes and by what is left of `p` is the sequence
that was buffered and left before. -/
structure Carried (st st1 : bufio.LoopState) (f : File) : Prop where
  wr : st1.writer.wr = st.writer.wr
  size : st1.writer.size = st.writer.size
  count : st1.nn + st1.rest.length = st.nn + st.rest.length
  bytes : ∃ x, Feeds st1.writer st1.world { f with data := f.data ++ x } ∧
    st1.world.files = st.world.files.set st.writer.wr { f with data := f.data ++ x } ∧
    x ++ st1.writer.buf ++ st1.rest = st.writer.buf ++ st.rest

/-- The sink has the open file `f` at handle `h`, and its writer `b`, which has no
pending error, writes to it; no system call fails. -/
structure OpenAt (s : Sys) (h : Nat) (b : bufio.Writer) (f : File) : Prop where
  file : s.sb.file = some h
  writer : s.sb.Writer = some b
  wr : b.wr = h
  feeds : Feeds b s.world f

/-- The file `rotateFile` leaves current: named for `INFO` and `now`, holding the header. -/
def freshFile (pf : Platform) (now : Time) : File :=
  { tag := "INFO", created := now, data := header pf now, closed := false }

/-- The invariant of a sink created in a world that held the files `pre`, after the bytes
`written` have been written to it: the world holds `pre`, then the closed files `done`
of the sink, then its current file `cur`; every one of the sink's files begins with its
header; and what follows the headers, then the buffer, is `written`. -/
def Inv (pf : Platform) (pre : List File) (written : List Byte) (s : Sys) : Prop :=
  ∃ done cur b, s.world.files = pre ++ done ++ [cur] ∧
    OpenAt s (pre ++ done).length b cur ∧
    (∀ g ∈ done, g.Headed pf) ∧ cur.Headed pf ∧
    payload pf done ++ cur.body pf ++ b.buf = written

/-! ## Concrete data for evaluation -/

def pf0 : Platform :=
  { host := ascii "h", compiler := ascii "gc", version := ascii "go1", goos := ascii "linux",
    goarch := ascii "amd64" }

def t0 : Time := { year := 2024, month := 3, day := 5, hour := 7, minute := 8, second := 9 }

def t1 : Time := { year := 2024, month := 3, day := 5, hour := 7, minute := 8, second := 10 }

def t2 : Time := { year := 2024, month := 3, day := 5, hour := 7, minute := 9, second := 0 }

def t3 : Time := { year := 2024, month := 3, day := 6, hour := 0, minute := 0, second := 0 }

def t4 : Time := { year := 2025, month := 1, day := 1, hour := 12, minute := 30, second := 0 }

def w0 : World := { files := [], faults := [], trace := [] }

/-- The sink `createFiles` returns at time `t0` in the empty world. -/
def sink0 : Sys := (createFiles pf0 t0 w0).2

/-- The sink `sink0` after the write of `abc`, which stays in the buffer. -/
def sinkABC : Sys := (Write pf0 1000 t1 (ascii "abc") sink0).2

/-- The sink `sink0` in a world whose next `Close` succeeds and whose next `create` fails. -/
def sinkCreateFails : Sys :=
  { sink0 with world := { sink0.world with faults := [none, some 0] } }

/-- The sink `sinkABC` in a world whose next two system calls fail, the first of them a
write that accepts one byte. -/
def sinkFaulty : Sys :=
  { sinkABC with world := { sinkABC.world with faults := [some 1, some 0] } }

/-- The sink `sinkABC` in a world whose next system call, a write, fails after accepting
one byte. -/
def sinkShortFlush : Sys :=
  { sinkABC with world := { sinkABC.world with faults := [some 1] } }

/-- The writer of `sinkStuck`. -/
def stuckWriter : bufio.Writer :=
  { wr := 0, size := bufferSize, buf := ascii "bc", err := some Error.writeFailed }

/-- The sink `sinkFaulty` after a tick of the daemon: the flush has failed, and the
writer keeps the error and the two bytes it could not write. -/
def sinkStuck : Sys := (lockAndFlushAll sinkFaulty).2

/-- Three writes and a tick of the daemon; with `MaxSize = 180` the second and the third
write rotate. -/
def ops0 : List Op :=
  [Op.write t1 (ascii "abc"), Op.write t2 (ascii "defgh"), Op.tick, Op.write t3 (ascii "ij")]

end Logging

/-! # Theorems -/

namespace Logging

open bufio

set_option maxRecDepth 100000

/-! ## The system calls when nothing fails -/

theorem u64_le (n : Nat) : u64 n ≤ n := Nat.mod_le _ _

theorem u64_add_u64 (a b : Nat) : u64 (a + u64 b) = u64 (a + b) := by
  unfold u64; omega

theorem u64_u64_add (a b : Nat) : u64 (u64 a + b) = u64 (a + b) := by
  unfold u64; omega

theorem nextFault_quiet {w : World} (hq : w.Quiet) :
    w.nextFault = (none, { w with faults := w.faults.tail }) := by
  unfold World.nextFault
  cases hf : w.faults with
  | nil => cases w; simp_all
  | cons x rest =>
    have hx : x = none := hq x (by simp [hf])
    simp [hx]

theorem quiet_tail {w : World} (hq : w.Quiet) (fs : List File) (tr : List Event) :
    World.Quiet { files := fs, faults := w.faults.tail, trace := tr } := by
  intro x hx
  exact hq x (List.mem_of_mem_tail hx)

theorem set_getElem?_self {α : Type} (l : List α) (i : Nat) (a : α) (h : l[i]? = some a) :
    l.set i a = l := by
  induction l generalizing i with
  | nil => rfl
  | cons x xs ih =>
    cases i with
    | zero => simp at h; simp [h]
    | succ j => simp at h; simp [ih j h]

theorem os_Write_quiet {w : World} {h : Nat} {f : File} (bs : List Byte) (hq : w.Quiet)
    (hf : w.files[h]? = some f) (hc : f.closed = false) :
    os.Write w h bs =
      { n := bs.length, err := none,
        world := { files := w.files.set h { f with data := f.data ++ bs },
                   faults := w.faults.tail,
                   trace := w.trace ++ [Event.write h bs.length true] } } := by
  unfold os.Write
  simp [hf, hc, nextFault_quiet hq]

/-- A write that reports no error has accepted every byte. -/
theorem os_Write_n_of_ok (w : World) (h : Nat) (bs : List Byte)
    (he : (os.Write w h bs).err = none) : (os.Write w h bs).n = bs.length := by
  unfold os.Write at he ⊢
  cases hf : w.files[h]? with
  | none => simp [hf] at he
  | some f =>
    cases hc : f.closed with
    | true => simp [hf, hc] at he
    | false =>
      cases hn : w.nextFault.1 with
      | none => simp [hf, hc, hn]
      | some k => simp [hf, hc, hn] at he

/-! ## `bufio.Writer` -/

/-- `Flush` returns the sticky error it leaves in the writer. -/
theorem Flush_err (b : Writer) (w : World) : (b.Flush w).writer.err = (b.Flush w).err := by
  unfold Writer.Flush
  cases hb : b.err with
  | some e => simp [hb]
  | none =>
    by_cases h0 : b.buf.length = 0
    · simp [h0, hb]
    · simp only [h0, if_false]
      split <;> simp_all

/-- A `Flush` that reports no error leaves the buffer empty. -/
theorem Flush_buf_of_ok (b : Writer) (w : World) (he : (b.Flush w).err = none) :
    (b.Flush w).writer.buf = [] := by
  unfold Writer.Flush at he ⊢
  cases hb : b.err with
  | some e => simp [hb] at he
  | none =>
    by_cases h0 : b.buf.length = 0
    · simp [h0]; simpa using h0
    · simp only [h0, if_false] at he ⊢
      split <;> simp_all

theorem Flush_wr (b : Writer) (w : World) : (b.Flush w).writer.wr = b.wr := by
  unfold Writer.Flush
  cases hb : b.err with
  | some e => simp
  | none =>
    by_cases h0 : b.buf.length = 0
    · simp [h0]
    · simp only [h0, if_false]
      split <;> simp

theorem Flush_size (b : Writer) (w : World) : (b.Flush w).writer.size = b.size := by
  unfold Writer.Flush
  cases hb : b.err with
  | some e => simp
  | none =>
    by_cases h0 : b.buf.length = 0
    · simp [h0]
    · simp only [h0, if_false]
      split <;> simp

/-- `Flush` when nothing fails: the buffered bytes move to the end of the file. -/
theorem Flush_quiet {b : Writer} {w : World} {f : File} (hq : w.Quiet) (he : b.err = none)
    (hf : w.files[b.wr]? = some f) (hc : f.closed = false) :
    (b.Flush w).err = none ∧ (b.Flush w).writer = { b with buf := [] } ∧
      (b.Flush w).world.files = w.files.set b.wr { f with data := f.data ++ b.buf } ∧
      (b.Flush w).world.Quiet := by
  by_cases h0 : b.buf.length = 0
  · have hb : b.buf = [] := by simpa using h0
    have hfl : b.Flush w = { err := none, writer := b, world := w } := by
      unfold Writer.Flush
      simp only [he, h0, if_true]
    rw [hfl]
    refine ⟨rfl, ?_, ?_, hq⟩
    · cases b; simp_all
    · show w.files = _
      rw [hb, List.append_nil]
      exact (set_getElem?_self _ _ _ hf).symm
  · have hfl : b.Flush w =
        ⟨none, { b with buf := [] },
          ⟨w.files.set b.wr { f with data := f.data ++ b.buf }, w.faults.tail,
            w.trace ++ [Event.write b.wr b.buf.length true]⟩⟩ := by
      unfold Writer.Flush
      simp only [he, h0, if_false, os_Write_quiet b.buf hq hf hc]
      simp
    rw [hfl]
    exact ⟨rfl, rfl, rfl, quiet_tail hq _ _⟩

theorem writeLoop_of_not_cond (fuel : Nat) (st : LoopState)
    (h : ¬ (st.rest.length > st.writer.Available ∧ st.writer.err = none)) :
    Writer.writeLoop fuel st = st := by
  cases fuel with
  | zero => rfl
  | succ k => simp only [Writer.writeLoop, h, if_false]

/-- One iteration of the loop either sets the sticky error or brings the loop closer to
its end: what is left of `p`, plus one while the buffer holds bytes, decreases. -/
theorem writeStep_progress (st : LoopState)
    (hc : st.rest.length > st.writer.Available ∧ st.writer.err = none) :
    (Writer.writeStep st).writer.err ≠ none ∨
      (Writer.writeStep st).rest.length
          + (if (Writer.writeStep st).writer.buf.length = 0 then 0 else 1)
        < st.rest.length + (if st.writer.buf.length = 0 then 0 else 1) := by
  unfold Writer.writeStep
  by_cases h0 : st.writer.buf.length = 0
  · simp only [h0, if_true]
    cases hr : (os.Write st.world st.writer.wr st.rest).err with
    | some e => left; simp
    | none =>
      right
      have hn := os_Write_n_of_ok _ _ _ hr
      simp only [hn, List.length_drop, h0, if_true]
      omega
  · simp only [h0, if_false]
    generalize hfl : Writer.Flush _ st.world = fl
    cases hr : fl.err with
    | some e =>
      left
      have hw : fl.writer.err = fl.err := hfl ▸ Flush_err _ st.world
      simp [hw, hr]
    | none =>
      right
      have hb : fl.writer.buf = [] := by
        subst hfl
        exact Flush_buf_of_ok _ _ hr
      simp only [hb, List.length_nil, if_true, List.length_drop]
      omega

/-- The loop of `Write` has ended within `len(p) + 2` iterations, whatever the system
calls do: fuel beyond what is left of `p` (plus one when the buffer holds bytes) leaves
the loop at a state where its condition is false. -/
theorem writeLoop_exit (fuel : Nat) (st : LoopState)
    (hfuel : st.rest.length + (if st.writer.buf.length = 0 then 0 else 1) < fuel) :
    ¬ ((Writer.writeLoop fuel st).rest.length > (Writer.writeLoop fuel st).writer.Available
        ∧ (Writer.writeLoop fuel st).writer.err = none) := by
  induction fuel generalizing st with
  | zero => omega
  | succ k ih =>
    by_cases hc : st.rest.length > st.writer.Available ∧ st.writer.err = none
    · simp only [Writer.writeLoop, hc, if_true, and_self]
      rcases writeStep_progress st hc with he | hlt
      · rw [writeLoop_of_not_cond _ _ (fun h => he h.2)]
        exact fun h => he h.2
      · exact ih _ (by omega)
    · rw [writeLoop_of_not_cond _ _ hc]
      exact hc

theorem getElem?_set_same {α : Type} (l : List α) (i : Nat) (a b : α) (h : l[i]? = some a) :
    (l.set i b)[i]? = some b := by
  induction l generalizing i with
  | nil => simp at h
  | cons x xs ih =>
    cases i with
    | zero => simp
    | succ j => simp at h; simpa using ih j h

theorem getElem?_set_other {α : Type} (l : List α) (i j : Nat) (b : α) (h : j ≠ i) :
    (l.set i b)[j]? = l[j]? := by
  induction l generalizing i j with
  | nil => simp
  | cons x xs ih =>
    cases i with
    | zero =>
      cases j with
      | zero => exact absurd rfl h
      | succ k => simp
    | succ i1 =>
      cases j with
      | zero => simp
      | succ k => simpa using ih i1 k (by omega)

theorem set_set_same {α : Type} (l : List α) (i : Nat) (a b : α) :
    (l.set i a).set i b = l.set i b := by
  induction l generalizing i with
  | nil => rfl
  | cons x xs ih =>
    cases i with
    | zero => rfl
    | succ j => simp [ih j]

theorem File.data_append_nil (f : File) : { f with data := f.data ++ [] } = f := by
  cases f; simp

theorem Carried.refl (st : LoopState) (f : File) (hf : Feeds st.writer st.world f) :
    Carried st st f :=
  { wr := rfl, size := rfl, count := rfl,
    bytes := ⟨[], by rw [File.data_append_nil]; exact hf,
      by rw [File.data_append_nil]; exact (set_getElem?_self _ _ _ hf.file).symm, rfl⟩ }

theorem Carried.trans {st st1 st2 : LoopState} {f : File} (h1 : Carried st st1 f)
    (h2 : ∀ x, Feeds st1.writer st1.world { f with data := f.data ++ x } →
      Carried st1 st2 { f with data := f.data ++ x }) : Carried st st2 f := by
  obtain ⟨x1, hf1, hfiles1, hb1⟩ := h1.bytes
  have h3 := h2 x1 hf1
  obtain ⟨x2, hf2, hfiles2, hb2⟩ := h3.bytes
  simp only [List.append_assoc] at hf2 hfiles2
  refine { wr := h3.wr.trans h1.wr, size := h3.size.trans h1.size,
           count := h3.count.trans h1.count, bytes := ⟨x1 ++ x2, hf2, ?_, ?_⟩ }
  · rw [hfiles2, hfiles1, h1.wr, set_set_same]
  · rw [← hb1]
    simp only [List.append_assoc] at hb2 ⊢
    rw [hb2]

theorem writeStep_quiet (st : LoopState) (f : File) (hf : Feeds st.writer st.world f)
    (hc : st.rest.length > st.writer.Available) :
    Carried st (Writer.writeStep st) f := by
  obtain ⟨hq, he, hfile, ho⟩ := hf
  unfold Writer.writeStep
  by_cases h0 : st.writer.buf.length = 0
  · have hb : st.writer.buf = [] := by simpa using h0
    simp only [h0, if_true, os_Write_quiet st.rest hq hfile ho]
    refine { wr := rfl, size := rfl, count := by simp, bytes := ⟨st.rest, ?_, rfl, ?_⟩ }
    · exact ⟨quiet_tail hq _ _, rfl, getElem?_set_same _ _ _ _ hfile, ho⟩
    · simp [hb]
  · simp only [h0, if_false]
    have hmin : min st.writer.Available st.rest.length = st.writer.Available :=
      Nat.min_eq_left (Nat.le_of_lt hc)
    rw [hmin]
    obtain ⟨_, hw, hfiles, hq1⟩ :=
      Flush_quiet (b := st.writer.fill (st.rest.take st.writer.Available)) hq he hfile ho
    refine { wr := by rw [hw]; rfl, size := by rw [hw]; rfl, count := ?_, bytes :=
      ⟨st.writer.buf ++ st.rest.take st.writer.Available, ?_, hfiles, ?_⟩ }
    · simp only [List.length_drop]
      omega
    · refine ⟨hq1, by rw [hw]; exact he, ?_, ho⟩
      rw [hfiles, hw]
      exact getElem?_set_same _ _ _ _ hfile
    · rw [hw]
      simp

theorem writeLoop_quiet (fuel : Nat) (st : LoopState) (f : File)
    (hf : Feeds st.writer st.world f) : Carried st (Writer.writeLoop fuel st) f := by
  induction fuel generalizing st f with
  | zero => exact Carried.refl st f hf
  | succ k ih =>
    by_cases hc : st.rest.length > st.writer.Available ∧ st.writer.err = none
    · simp only [Writer.writeLoop, hc, if_true, and_self]
      have h1 := writeStep_quiet st f hf hc.1
      exact Carried.trans h1 (fun x hx => ih _ _ hx)
    · rw [writeLoop_of_not_cond _ _ hc]
      exact Carried.refl st f hf

/-! ## The sink when nothing fails -/

theorem bufio_Write_quiet (b : Writer) (w : World) (p : List Byte) (f : File)
    (hf : Feeds b w f) :
    (b.Write w p).err = none ∧ (b.Write w p).n = p.length ∧
      (b.Write w p).writer.wr = b.wr ∧ (b.Write w p).writer.size = b.size ∧
      ∃ x, Feeds (b.Write w p).writer (b.Write w p).world { f with data := f.data ++ x } ∧
        (b.Write w p).world.files = w.files.set b.wr { f with data := f.data ++ x } ∧
        x ++ (b.Write w p).writer.buf = b.buf ++ p := by
  have hcar := writeLoop_quiet (p.length + 2) { writer := b, world := w, rest := p, nn := 0 } f hf
  have hexit := writeLoop_exit (p.length + 2) { writer := b, world := w, rest := p, nn := 0 }
    (by show p.length + _ < _; split <;> omega)
  unfold Writer.Write
  generalize Writer.writeLoop (p.length + 2) { writer := b, world := w, rest := p, nn := 0 } = st
    at hcar hexit
  obtain ⟨hwr, hsize, hcount, d, hfd, hfiles, hbytes⟩ := hcar
  have herr := hfd.err
  have hle : st.rest.length ≤ st.writer.Available := by
    by_contra hlt
    exact hexit ⟨by omega, herr⟩
  have hmin : min st.writer.Available st.rest.length = st.rest.length := Nat.min_eq_right hle
  simp only [herr, hmin, List.take_length]
  simp only at hcount hwr hsize hfiles hbytes
  refine ⟨trivial, by omega, hwr, hsize, d, ⟨hfd.quiet, herr, hfd.file, hfd.isOpen⟩,
    hfiles, ?_⟩
  show d ++ (st.writer.buf ++ st.rest) = _
  rw [← List.append_assoc]
  exact hbytes

theorem getElem?_append_new {α : Type} (l : List α) (a : α) :
    (l ++ [a])[l.length]? = some a := by
  induction l with
  | nil => rfl
  | cons x xs ih => simp

theorem bufferedWrite_quiet (p : List Byte) (s : Sys) (h : Nat) (b : Writer) (f : File)
    (ho : OpenAt s h b f) :
    (bufferedWrite p s).1 = .returned none ∧
      (bufferedWrite p s).2.sb.nbytes = u64 (s.sb.nbytes + p.length) ∧
      ∃ b1 x, OpenAt (bufferedWrite p s).2 h b1 { f with data := f.data ++ x } ∧
        (bufferedWrite p s).2.world.files = s.world.files.set h { f with data := f.data ++ x } ∧
        x ++ b1.buf = b.buf ++ p := by
  obtain ⟨hfile, hwriter, hwr, hfeeds⟩ := ho
  obtain ⟨he, hn, hwr1, _, d, hfd, hfiles, hbytes⟩ := bufio_Write_quiet b s.world p f hfeeds
  unfold bufferedWrite
  simp only [hwriter, he, hn, u64_add_u64]
  refine ⟨trivial, trivial, (b.Write s.world p).writer, d,
    ⟨hfile, rfl, hwr1.trans hwr, hfd⟩, ?_, hbytes⟩
  rw [← hwr]
  exact hfiles

theorem set_append_new {α : Type} (l : List α) (a b : α) :
    (l ++ [a]).set l.length b = l ++ [b] := by
  induction l with
  | nil => rfl
  | cons x xs ih => simp [ih]

theorem os_Close_quiet {w : World} {h : Nat} {f : File} (hq : w.Quiet)
    (hf : w.files[h]? = some f) :
    os.Close w h =
      ⟨w.files.set h { f with closed := true }, w.faults.tail, w.trace ++ [Event.close h]⟩ := by
  unfold os.Close
  simp [hf, nextFault_quiet hq]

theorem create_quiet (tag : String) (t : Time) {w : World} (hq : w.Quiet) :
    create tag t w =
      (.ok w.files.length,
        ⟨w.files ++ [File.new tag t], w.faults.tail,
          w.trace ++ [Event.create w.files.length]⟩) := by
  unfold create
  simp [nextFault_quiet hq]

/-- The creation of a file and the writing of its header, when nothing fails. -/
theorem openFresh_quiet (pf : Platform) (now : Time) {w : World} (hq : w.Quiet) :
    (create "INFO" now w).1 = .ok w.files.length ∧
      (os.Write (create "INFO" now w).2 w.files.length (header pf now)).err = none ∧
      (os.Write (create "INFO" now w).2 w.files.length (header pf now)).n
        = (header pf now).length ∧
      (os.Write (create "INFO" now w).2 w.files.length (header pf now)).world.files
        = w.files ++ [freshFile pf now] ∧
      (os.Write (create "INFO" now w).2 w.files.length (header pf now)).world.Quiet := by
  rw [create_quiet "INFO" now hq]
  have hq1 : World.Quiet ⟨w.files ++ [File.new "INFO" now], w.faults.tail,
      w.trace ++ [Event.create w.files.length]⟩ :=
    quiet_tail hq _ _
  rw [os_Write_quiet (header pf now) hq1 (getElem?_append_new _ _) rfl]
  refine ⟨rfl, rfl, rfl, ?_, quiet_tail hq1 _ _⟩
  show (w.files ++ [_]).set w.files.length _ = _
  rw [set_append_new]
  rfl

/-- A rotation of an open sink when nothing fails. -/
theorem rotateFile_quiet (pf : Platform) (now : Time) (s : Sys) (h : Nat) (b : Writer)
    (f : File) (ho : OpenAt s h b f) :
    (rotateFile pf now s).1 = .returned none ∧
      (rotateFile pf now s).2.sb.nbytes = u64 (header pf now).length ∧
      OpenAt (rotateFile pf now s).2 s.world.files.length
        (NewWriterSize s.world.files.length bufferSize) (freshFile pf now) ∧
      (rotateFile pf now s).2.world.files =
        s.world.files.set h { f with data := f.data ++ b.buf, closed := true }
          ++ [freshFile pf now] := by
  obtain ⟨hfile, hwriter, hwr, hfeeds⟩ := ho
  subst hwr
  obtain ⟨_, hfw, hffiles, hfq⟩ := Flush_quiet hfeeds.quiet hfeeds.err hfeeds.file hfeeds.isOpen
  have hf1 : (b.Flush s.world).world.files[b.wr]? = some { f with data := f.data ++ b.buf } := by
    rw [hffiles]
    exact getElem?_set_same _ _ _ _ hfeeds.file
  have hclose := os_Close_quiet hfq hf1
  have hq2 : (os.Close (b.Flush s.world).world b.wr).Quiet := by
    rw [hclose]
    exact quiet_tail hfq _ _
  have hfiles2 : (os.Close (b.Flush s.world).world b.wr).files =
      s.world.files.set b.wr { f with data := f.data ++ b.buf, closed := true } := by
    rw [hclose]
    show ((b.Flush s.world).world.files).set b.wr _ = _
    rw [hffiles, set_set_same]
  have hlen : (os.Close (b.Flush s.world).world b.wr).files.length = s.world.files.length := by
    rw [hfiles2, List.length_set]
  obtain ⟨hc1, hw1, hw2, hw3, hw4⟩ := openFresh_quiet pf now hq2
  unfold rotateFile closeCurrent
  rw [hlen] at hc1 hw1 hw2 hw3 hw4
  simp only [hfile, hwriter, hc1, hw1, hw2, hw3, Nat.zero_add]
  refine ⟨trivial, trivial, ⟨rfl, rfl, rfl, ⟨hw4, rfl, ?_, rfl⟩⟩, ?_⟩
  · show (os.Write _ _ _).world.files[s.world.files.length]? = _
    rw [hw3, ← hlen]
    exact getElem?_append_new _ _
  · rw [hfiles2]

/-- The first rotation, of a sink that has no file yet, when nothing fails. -/
theorem rotateFile_quiet_fresh (pf : Platform) (now : Time) (s : Sys) (hfile : s.sb.file = none)
    (hq : s.world.Quiet) :
    (rotateFile pf now s).1 = .returned none ∧
      (rotateFile pf now s).2.sb.nbytes = u64 (header pf now).length ∧
      OpenAt (rotateFile pf now s).2 s.world.files.length
        (NewWriterSize s.world.files.length bufferSize) (freshFile pf now) ∧
      (rotateFile pf now s).2.world.files = s.world.files ++ [freshFile pf now] := by
  obtain ⟨hc1, hw1, hw2, hw3, hw4⟩ := openFresh_quiet pf now hq
  unfold rotateFile closeCurrent
  simp only [hfile, hc1, hw1, hw2, hw3, Nat.zero_add]
  refine ⟨trivial, trivial, ⟨rfl, rfl, rfl, ⟨hw4, rfl, ?_, rfl⟩⟩, trivial⟩
  show (os.Write _ _ _).world.files[s.world.files.length]? = _
  rw [hw3]
  exact getElem?_append_new _ _

theorem os_Sync_quiet {w : World} (h : Nat) (hq : w.Quiet) :
    os.Sync w h = ⟨w.files, w.faults.tail, w.trace ++ [Event.sync h true]⟩ := by
  unfold os.Sync
  simp [nextFault_quiet hq]

/-- The method `flushAll` on an open sink when nothing fails: the buffered bytes reach the
file, the buffer is empty, the counter and the file handle stay. -/
theorem flushAll_quiet (s : Sys) (h : Nat) (b : Writer) (f : File) (ho : OpenAt s h b f) :
    (flushAll s).1 = .returned none ∧ (flushAll s).2.sb.nbytes = s.sb.nbytes ∧
      OpenAt (flushAll s).2 h { b with buf := [] } { f with data := f.data ++ b.buf } ∧
      (flushAll s).2.world.files = s.world.files.set h { f with data := f.data ++ b.buf } := by
  obtain ⟨hfile, hwriter, hwr, hfeeds⟩ := ho
  subst hwr
  obtain ⟨_, hfw, hffiles, hfq⟩ := Flush_quiet hfeeds.quiet hfeeds.err hfeeds.file hfeeds.isOpen
  unfold flushAll
  simp only [hfile, hwriter, os_Sync_quiet b.wr hfq, hfw, hffiles]
  refine ⟨trivial, trivial,
    ⟨rfl, rfl, rfl, ⟨quiet_tail hfq _ _, hfeeds.err, ?_, hfeeds.isOpen⟩⟩,
    trivial⟩
  exact getElem?_set_same _ _ _ _ hfeeds.file

theorem Write_below (pf : Platform) (MaxSize : Nat) (now : Time) (p : List Byte) (s : Sys)
    (hlt : u64 (s.sb.nbytes + p.length) < MaxSize) :
    Write pf MaxSize now p s = bufferedWrite p s := by
  unfold Write rotationCheck
  rw [u64_add_u64]
  simp only [ge_iff_le, Nat.not_le.mpr hlt, if_false]

theorem Write_reached (pf : Platform) (MaxSize : Nat) (now : Time) (p : List Byte) (s : Sys)
    (hge : MaxSize ≤ u64 (s.sb.nbytes + p.length))
    (hrot : (rotateFile pf now s).1 = .returned none) :
    Write pf MaxSize now p s = bufferedWrite p (rotateFile pf now s).2 := by
  unfold Write rotationCheck
  rw [u64_add_u64]
  simp only [ge_iff_le, hge, if_true]
  generalize rotateFile pf now s = r at hrot
  obtain ⟨o, s1⟩ := r
  simp only at hrot
  subst hrot
  rfl

theorem OpenAt.lt_length {s : Sys} {h : Nat} {b : Writer} {f : File} (ho : OpenAt s h b f) :
    h < s.world.files.length := by
  have hf := ho.feeds.file
  rw [ho.wr] at hf
  by_contra hge
  rw [List.getElem?_eq_none (by omega)] at hf
  cases hf

theorem content_of_open {s : Sys} {h : Nat} {b : Writer} {f : File} (ho : OpenAt s h b f) :
    s.content h = f.data ++ b.buf := by
  have hf := ho.feeds.file
  rw [ho.wr] at hf
  simp [Sys.content, Sys.buffered, hf, ho.writer, ho.wr]

theorem content_of_other {s : Sys} {h : Nat} {b : Writer} {f : File} (ho : OpenAt s h b f)
    (k : Nat) (hk : k ≠ h) :
    s.content k = ((s.world.files[k]?).map File.data).getD [] := by
  have hne : ¬ b.wr = k := by rw [ho.wr]; exact fun e => hk e.symm
  cases hf : s.world.files[k]? with
  | none => simp [Sys.content, hf]
  | some g => simp [Sys.content, Sys.buffered, hf, ho.writer, hne]

/-! ## The claims about one `Write` -/

/-- The sink of `createFiles` is open on file `0`, which holds the header. -/
theorem sink0_open : OpenAt sink0 0 (NewWriterSize 0 bufferSize) (freshFile pf0 t0) :=
  ⟨rfl, rfl, rfl, ⟨by decide, rfl, rfl, rfl⟩⟩

/-- Claim C1. With no system call failing, `Write(p)` on an open sink returns nil and rotates
exactly when the `uint64` sum `nbytes + len(p)` reaches `MaxSize`. Below the threshold the
file stays, no file is created and the counter becomes that sum. At or above it exactly
one file is created and becomes current before `p` is written, so the new file holds the
header followed by `p`, and the counter becomes header length plus `len(p)`. -/
theorem Write_rotates_iff_threshold (pf : Platform) (MaxSize : Nat) (now : Time)
    (p : List Byte) (s : Sys) (h : Nat) (b : Writer) (f : File) (ho : OpenAt s h b f) :
    (Write pf MaxSize now p s).1 = .returned none ∧
      (u64 (s.sb.nbytes + p.length) < MaxSize →
        (Write pf MaxSize now p s).2.sb.file = some h ∧
        (Write pf MaxSize now p s).2.world.files.length = s.world.files.length ∧
        (Write pf MaxSize now p s).2.sb.nbytes = u64 (s.sb.nbytes + p.length)) ∧
      (MaxSize ≤ u64 (s.sb.nbytes + p.length) →
        (Write pf MaxSize now p s).2.sb.file = some s.world.files.length ∧
        (Write pf MaxSize now p s).2.world.files.length = s.world.files.length + 1 ∧
        (Write pf MaxSize now p s).2.sb.nbytes = u64 ((header pf now).length + p.length) ∧
        (Write pf MaxSize now p s).2.content s.world.files.length = header pf now ++ p) := by
  by_cases hlt : u64 (s.sb.nbytes + p.length) < MaxSize
  · rw [Write_below pf MaxSize now p s hlt]
    obtain ⟨hret, hn, b1, x, ho1, hfiles, _⟩ := bufferedWrite_quiet p s h b f ho
    refine ⟨hret, fun _ => ⟨ho1.file, ?_, hn⟩, fun hge => absurd hlt (Nat.not_lt.mpr hge)⟩
    rw [hfiles, List.length_set]
  · have hge : MaxSize ≤ u64 (s.sb.nbytes + p.length) := Nat.not_lt.mp hlt
    obtain ⟨hrot, hn0, ho0, hfiles0⟩ := rotateFile_quiet pf now s h b f ho
    rw [Write_reached pf MaxSize now p s hge hrot]
    obtain ⟨hret, hn, b1, x, ho1, hfiles, hx⟩ :=
      bufferedWrite_quiet p (rotateFile pf now s).2 _ _ _ ho0
    refine ⟨hret, fun hlt1 => absurd hlt1 hlt, fun _ => ⟨ho1.file, ?_, ?_, ?_⟩⟩
    · rw [hfiles, List.length_set, hfiles0, List.length_append, List.length_set]
      rfl
    · rw [hn, hn0, u64_u64_add]
    · rw [content_of_open ho1, List.append_assoc, hx]
      rfl

theorem Write_rotates_iff_threshold_witness :
    OpenAt sink0 0 (NewWriterSize 0 bufferSize) (freshFile pf0 t0) ∧
      (Write pf0 1000 t1 (ascii "abc") sink0).1 = .returned none ∧
      u64 (sink0.sb.nbytes + (ascii "abc").length) < 1000 ∧
      (Write pf0 1000 t1 (ascii "abc") sink0).2.sb.nbytes
        = u64 (sink0.sb.nbytes + (ascii "abc").length) :=
  ⟨sink0_open,
    (Write_rotates_iff_threshold pf0 1000 t1 (ascii "abc") sink0 0 _ _ sink0_open).1,
    by decide,
    ((Write_rotates_iff_threshold pf0 1000 t1 (ascii "abc") sink0 0 _ _ sink0_open).2.1
      (by decide)).2.2⟩

/-- Claim C4. With no system call failing, one `Write(p)` on an open sink puts all of `p`,
contiguous and in order, at the end of exactly one file: the file that is current after
the rotation check (the old file `h` when there was no rotation, the new file, right after
its header, when there was one). Every other file, the one a rotation has just closed
included, holds exactly the bytes it held or had buffered before the call. -/
theorem Write_never_splits (pf : Platform) (MaxSize : Nat) (now : Time)
    (p : List Byte) (s : Sys) (h : Nat) (b : Writer) (f : File) (ho : OpenAt s h b f) :
    ∃ h1, (Write pf MaxSize now p s).2.sb.file = some h1 ∧
      (h1 = h ∨ h1 = s.world.files.length) ∧
      (Write pf MaxSize now p s).2.content h1
        = (if h1 = h then s.content h else header pf now) ++ p ∧
      ∀ k, k ≠ h1 → (Write pf MaxSize now p s).2.content k = s.content k := by
  have hlen := ho.lt_length
  by_cases hlt : u64 (s.sb.nbytes + p.length) < MaxSize
  · rw [Write_below pf MaxSize now p s hlt]
    obtain ⟨_, _, b1, x, ho1, hfiles, hx⟩ := bufferedWrite_quiet p s h b f ho
    refine ⟨h, ho1.file, Or.inl rfl, ?_, fun k hk => ?_⟩
    · rw [content_of_open ho1, content_of_open ho, if_pos rfl]
      show (f.data ++ x) ++ b1.buf = _
      rw [List.append_assoc, hx, List.append_assoc]
    · rw [content_of_other ho1 k hk, content_of_other ho k hk, hfiles,
        getElem?_set_other _ _ _ _ hk]
  · have hge : MaxSize ≤ u64 (s.sb.nbytes + p.length) := Nat.not_lt.mp hlt
    obtain ⟨hrot, _, ho0, hfiles0⟩ := rotateFile_quiet pf now s h b f ho
    rw [Write_reached pf MaxSize now p s hge hrot]
    obtain ⟨_, _, b1, x, ho1, hfiles, hx⟩ :=
      bufferedWrite_quiet p (rotateFile pf now s).2 _ _ _ ho0
    have hne : s.world.files.length ≠ h := by omega
    refine ⟨s.world.files.length, ho1.file, Or.inr rfl, ?_, fun k hk => ?_⟩
    · rw [content_of_open ho1, if_neg hne, List.append_assoc, hx]
      rfl
    · rw [content_of_other ho1 k hk, hfiles, getElem?_set_other _ _ _ _ hk, hfiles0]
      by_cases hkh : k = h
      · subst hkh
        rw [content_of_open ho, List.getElem?_append_left (by rw [List.length_set]; exact hlen),
          getElem?_set_same _ _ _ _ (ho.wr ▸ ho.feeds.file)]
        rfl
      · rw [content_of_other ho k hkh]
        by_cases hkl : k < s.world.files.length
        · rw [List.getElem?_append_left (by rw [List.length_set]; exact hkl),
            getElem?_set_other _ _ _ _ hkh]
        · have hgt : s.world.files.length < k := by omega
          rw [List.getElem?_eq_none (by simp; omega), List.getElem?_eq_none (by omega)]

theorem Write_never_splits_witness :
    OpenAt sink0 0 (NewWriterSize 0 bufferSize) (freshFile pf0 t0) ∧
      ∃ h1, (Write pf0 100 t1 (ascii "abc") sink0).2.sb.file = some h1 ∧
        (h1 = 0 ∨ h1 = sink0.world.files.length) ∧
        (Write pf0 100 t1 (ascii "abc") sink0).2.content h1
          = (if h1 = 0 then sink0.content 0 else header pf0 t1) ++ ascii "abc" ∧
        ∀ k, k ≠ h1 → (Write pf0 100 t1 (ascii "abc") sink0).2.content k = sink0.content k :=
  ⟨sink0_open, Write_never_splits pf0 100 t1 (ascii "abc") sink0 0 _ _ sink0_open⟩

/-! ## Sequences of operations -/

/-- One `Write` on an open sink when nothing fails, in full: either the threshold is not
reached and `p` is appended to the current file, or it is reached, the current file gets
its buffered bytes and is closed, and `p` follows the header of a new file. -/
theorem Write_quiet_cases (pf : Platform) (MaxSize : Nat) (now : Time)
    (p : List Byte) (s : Sys) (h : Nat) (b : Writer) (f : File) (ho : OpenAt s h b f) :
    (Write pf MaxSize now p s).1 = .returned none ∧
      ((u64 (s.sb.nbytes + p.length) < MaxSize ∧
          (Write pf MaxSize now p s).2.sb.nbytes = u64 (s.sb.nbytes + p.length) ∧
          ∃ b1 x, OpenAt (Write pf MaxSize now p s).2 h b1 { f with data := f.data ++ x } ∧
            (Write pf MaxSize now p s).2.world.files
              = s.world.files.set h { f with data := f.data ++ x } ∧
            x ++ b1.buf = b.buf ++ p) ∨
        (MaxSize ≤ u64 (s.sb.nbytes + p.length) ∧
          (Write pf MaxSize now p s).2.sb.nbytes = u64 ((header pf now).length + p.length) ∧
          ∃ b1 x, OpenAt (Write pf MaxSize now p s).2 s.world.files.length b1
              { freshFile pf now with data := header pf now ++ x } ∧
            (Write pf MaxSize now p s).2.world.files
              = s.world.files.set h { f with data := f.data ++ b.buf, closed := true }
                ++ [{ freshFile pf now with data := header pf now ++ x }] ∧
            x ++ b1.buf = p)) := by
  by_cases hlt : u64 (s.sb.nbytes + p.length) < MaxSize
  · rw [Write_below pf MaxSize now p s hlt]
    obtain ⟨hret, hn, b1, x, ho1, hfiles, hx⟩ := bufferedWrite_quiet p s h b f ho
    exact ⟨hret, Or.inl ⟨hlt, hn, b1, x, ho1, hfiles, hx⟩⟩
  · have hge : MaxSize ≤ u64 (s.sb.nbytes + p.length) := Nat.not_lt.mp hlt
    obtain ⟨hrot, hn0, ho0, hfiles0⟩ := rotateFile_quiet pf now s h b f ho
    rw [Write_reached pf MaxSize now p s hge hrot]
    obtain ⟨hret, hn, b1, x, ho1, hfiles, hx⟩ :=
      bufferedWrite_quiet p (rotateFile pf now s).2 _ _ _ ho0
    refine ⟨hret, Or.inr ⟨hge, ?_, b1, x, ho1, ?_, hx⟩⟩
    · rw [hn, hn0, u64_u64_add]
    · rw [hfiles, hfiles0]
      have hl : (s.world.files.set h { f with data := f.data ++ b.buf, closed := true }).length
          = s.world.files.length := List.length_set ..
      rw [← hl, set_append_new]
      rfl

/-- An invariant of the states that operations lead to, one after another. -/
theorem run_invariant (pf : Platform) (MaxSize : Nat) (I : List Byte → Sys → Prop)
    (Q : Op → Prop)
    (hstep : ∀ acc s op, Q op → I acc s →
      (step pf MaxSize op s).1 = .returned none ∧ I (acc ++ op.bytes) (step pf MaxSize op s).2) :
    ∀ ops acc s, (∀ op ∈ ops, Q op) → I acc s →
      (run pf MaxSize ops s).1 = .returned none ∧
        I (acc ++ (ops.map Op.bytes).flatten) (run pf MaxSize ops s).2 := by
  intro ops
  induction ops with
  | nil =>
    intro acc s _ hI
    simpa [run] using hI
  | cons op ops ih =>
    intro acc s hQ hI
    obtain ⟨hret, hI1⟩ := hstep acc s op (hQ op (List.mem_cons_self _ _)) hI
    have hrun : run pf MaxSize (op :: ops) s = run pf MaxSize ops (step pf MaxSize op s).2 := by
      show (match step pf MaxSize op s with
        | (.returned none, s1) => run pf MaxSize ops s1
        | r => r) = _
      generalize step pf MaxSize op s = r at hret
      obtain ⟨o, s1⟩ := r
      simp only at hret
      subst hret
      rfl
    rw [hrun]
    have := ih (acc ++ op.bytes) _ (fun o ho => hQ o (List.mem_cons_of_mem _ ho)) hI1
    simpa [List.append_assoc] using this

theorem createFiles_quiet (pf : Platform) (now : Time) (w : World) (hq : w.Quiet) :
    (createFiles pf now w).1 = .returned none ∧
      (createFiles pf now w).2.sb.nbytes = u64 (header pf now).length ∧
      OpenAt (createFiles pf now w).2 w.files.length (NewWriterSize w.files.length bufferSize)
        (freshFile pf now) ∧
      (createFiles pf now w).2.world.files = w.files ++ [freshFile pf now] := by
  have hr := rotateFile_quiet_fresh pf now
    { sb := { Writer := none, file := none, nbytes := 0 }, world := w } rfl hq
  unfold createFiles
  generalize rotateFile pf now { sb := { Writer := none, file := none, nbytes := 0 }, world := w }
    = r at hr
  obtain ⟨o, s1⟩ := r
  obtain ⟨hret, hrest⟩ := hr
  simp only at hret
  subst hret
  exact ⟨rfl, hrest⟩

theorem body_grow (pf : Platform) {g f : File} {x : List Byte} (hc : g.created = f.created)
    (hd : g.data = f.data ++ x) (hh : f.Headed pf) :
    g.Headed pf ∧ g.body pf = f.body pf ++ x := by
  obtain ⟨t, ht⟩ := hh
  refine ⟨⟨t ++ x, by rw [hd, ht, hc, List.append_assoc]⟩, ?_⟩
  unfold File.body
  rw [hd, ht, hc, List.append_assoc, List.drop_left, List.drop_left]

theorem payload_append (pf : Platform) (a c : List File) :
    payload pf (a ++ c) = payload pf a ++ payload pf c := by
  simp [payload]

theorem payload_single (pf : Platform) (f : File) : payload pf [f] = f.body pf := by
  simp [payload]

theorem Inv_createFiles (pf : Platform) (now : Time) (w : World) (hq : w.Quiet) :
    (createFiles pf now w).1 = .returned none ∧ Inv pf w.files [] (createFiles pf now w).2 := by
  obtain ⟨hret, _, ho, hfiles⟩ := createFiles_quiet pf now w hq
  refine ⟨hret, [], freshFile pf now, _, by simpa using hfiles, by simpa using ho,
    by simp, ⟨[], by simp [freshFile]⟩, ?_⟩
  simp [payload, File.body, freshFile, NewWriterSize]

theorem Inv_flushAll (pf : Platform) (pre : List File) (written : List Byte) (s : Sys)
    (hI : Inv pf pre written s) :
    (flushAll s).1 = .returned none ∧ Inv pf pre written (flushAll s).2 ∧
      ∀ k, (flushAll s).2.buffered k = [] := by
  obtain ⟨done, cur, b, hfiles, ho, hdone, hcur, hw⟩ := hI
  obtain ⟨hret, _, ho1, hfiles1⟩ := flushAll_quiet s _ b cur ho
  obtain ⟨hh, hb⟩ := body_grow pf (g := { cur with data := cur.data ++ b.buf }) (f := cur)
    (x := b.buf) rfl rfl hcur
  refine ⟨hret, ⟨done, _, _, ?_, ho1, hdone, hh, ?_⟩, fun k => ?_⟩
  · rw [hfiles1, hfiles, set_append_new]
  · rw [hb, ← hw]
    simp
  · simp [Sys.buffered, ho1.writer]

theorem Inv_Write (pf : Platform) (MaxSize : Nat) (now : Time) (p : List Byte)
    (pre : List File) (written : List Byte) (s : Sys) (hI : Inv pf pre written s) :
    (Write pf MaxSize now p s).1 = .returned none ∧
      Inv pf pre (written ++ p) (Write pf MaxSize now p s).2 := by
  obtain ⟨done, cur, b, hfiles, ho, hdone, hcur, hw⟩ := hI
  obtain ⟨hret, hcase⟩ := Write_quiet_cases pf MaxSize now p s _ b cur ho
  refine ⟨hret, ?_⟩
  rcases hcase with ⟨_, _, b1, x, ho1, hfiles1, hx⟩ | ⟨_, _, b1, x, ho1, hfiles1, hx⟩
  · obtain ⟨hh, hb⟩ := body_grow pf (g := { cur with data := cur.data ++ x }) (f := cur)
      (x := x) rfl rfl hcur
    refine ⟨done, _, b1, ?_, ho1, hdone, hh, ?_⟩
    · rw [hfiles1, hfiles, set_append_new]
    · rw [hb, ← hw]
      simp only [List.append_assoc]
      rw [hx]
  · obtain ⟨hh, hb⟩ := body_grow pf
      (g := { cur with data := cur.data ++ b.buf, closed := true }) (f := cur) (x := b.buf)
      rfl rfl hcur
    have hlen : s.world.files.length
        = (pre ++ (done ++ [{ cur with data := cur.data ++ b.buf, closed := true }])).length := by
      rw [hfiles]
      simp
    rw [hlen] at ho1
    refine ⟨done ++ [{ cur with data := cur.data ++ b.buf, closed := true }], _, b1, ?_, ho1, ?_,
      ⟨x, rfl⟩, ?_⟩
    · rw [hfiles1, hfiles, set_append_new]
      simp
    · intro g hg
      rcases List.mem_append.mp hg with hg1 | hg1
      · exact hdone g hg1
      · rw [List.mem_singleton.mp hg1]
        exact hh
    · rw [payload_append, payload_single, hb, ← hw, ← hx]
      simp [File.body, freshFile]

theorem Inv_step (pf : Platform) (MaxSize : Nat) (pre : List File) (acc : List Byte) (s : Sys)
    (op : Op) (hI : Inv pf pre acc s) :
    (step pf MaxSize op s).1 = .returned none ∧
      Inv pf pre (acc ++ op.bytes) (step pf MaxSize op s).2 := by
  cases op with
  | write now p => exact Inv_Write pf MaxSize now p pre acc s hI
  | tick =>
    obtain ⟨hret, hI1, _⟩ := Inv_flushAll pf pre acc s hI
    exact ⟨hret, by simpa [Op.bytes] using hI1⟩

/-! ## The claims about sequences of writes -/

/-- Claim C2, as stated, fails: after `createFiles`, with `MaxSize = 2`, one `Write` of three
bytes returns nil and leaves `nbytes = 176`, above `MaxSize` plus the header's 173 bytes. -/
theorem nbytes_exceeds_MaxSize_add_header :
    (run pf0 2 [Op.write t1 (ascii "abc")] sink0).1 = .returned none ∧
      (run pf0 2 [Op.write t1 (ascii "abc")] sink0).2.world.files.map File.created = [t0, t1] ∧
      (run pf0 2 [Op.write t1 (ascii "abc")] sink0).2.sb.nbytes = 176 ∧
      (header pf0 t1).length = 173 ∧
      ¬ ((run pf0 2 [Op.write t1 (ascii "abc")] sink0).2.sb.nbytes
          ≤ 2 + (header pf0 t1).length) := by
  decide

/-- Claim C2 (amended). From `createFiles`, with no system call failing, after every
sequence of writes (and of daemon ticks), for every `MaxSize`: all calls have returned nil
and, when no record written is longer than `L`, the counter `nbytes` is at most the larger
of `MaxSize` and `L`, plus the length of the current file's header. So
`nbytes ≤ MaxSize + header length` in every state reached by writes of at most `MaxSize`
bytes each. -/
theorem nbytes_le_MaxSize_add_header (pf : Platform) (MaxSize L : Nat) (now : Time) (w : World)
    (ops : List Op) (hq : w.Quiet) (hlen : ∀ op ∈ ops, op.bytes.length ≤ L) :
    (run pf MaxSize ops (createFiles pf now w).2).1 = .returned none ∧
      ∃ h b f, OpenAt (run pf MaxSize ops (createFiles pf now w).2).2 h b f ∧
        (run pf MaxSize ops (createFiles pf now w).2).2.sb.nbytes
          ≤ max MaxSize L + (header pf f.created).length := by
  obtain ⟨_, hn0, ho0, _⟩ := createFiles_quiet pf now w hq
  have hrun := run_invariant pf MaxSize
    (fun _ s => ∃ h b f, OpenAt s h b f ∧
      s.sb.nbytes ≤ max MaxSize L + (header pf f.created).length)
    (fun op => op.bytes.length ≤ L) ?_ ops [] _ hlen
    ⟨_, _, _, ho0, by rw [hn0]; exact Nat.le_trans (u64_le _) (Nat.le_add_left _ _)⟩
  · exact hrun
  · intro _ s op hop hI
    obtain ⟨h, b, f, ho, hb⟩ := hI
    cases op with
    | tick =>
      obtain ⟨hret, hn, ho1, _⟩ := flushAll_quiet s h b f ho
      refine ⟨hret, _, _, _, ho1, ?_⟩
      show (flushAll s).2.sb.nbytes ≤ _
      rw [hn]
      exact hb
    | write t p =>
      obtain ⟨hret, hcase⟩ := Write_quiet_cases pf MaxSize t p s h b f ho
      refine ⟨hret, ?_⟩
      rcases hcase with ⟨hlt, hn, b1, x, ho1, _, _⟩ | ⟨_, hn, b1, x, ho1, _, _⟩
      · refine ⟨_, _, _, ho1, ?_⟩
        show (Write pf MaxSize t p s).2.sb.nbytes ≤ _
        rw [hn]
        have := le_max_left MaxSize L
        omega
      · refine ⟨_, _, _, ho1, ?_⟩
        show (Write pf MaxSize t p s).2.sb.nbytes ≤ max MaxSize L + (header pf t).length
        rw [hn]
        have h1 := u64_le ((header pf t).length + p.length)
        have h2 : p.length ≤ L := hop
        have := le_max_right MaxSize L
        omega

theorem nbytes_le_MaxSize_add_header_witness :
    w0.Quiet ∧ (∀ op ∈ ops0, op.bytes.length ≤ 180) ∧
      (run pf0 180 ops0 (createFiles pf0 t0 w0).2).1 = .returned none ∧
      ∃ h b f, OpenAt (run pf0 180 ops0 (createFiles pf0 t0 w0).2).2 h b f ∧
        (run pf0 180 ops0 (createFiles pf0 t0 w0).2).2.sb.nbytes
          ≤ max 180 180 + (header pf0 f.created).length :=
  ⟨by decide, by decide,
    nbytes_le_MaxSize_add_header pf0 180 180 t0 w0 ops0 (by decide) (by decide)⟩

/-- Claim C3, as stated, fails: with `MaxSize = 100`, below the header's 173 bytes, the `Write`
of one byte that follows `createFiles` rotates and leaves `nbytes = 174`, above
`MaxSize + len(p) = 101`. -/
theorem nbytes_exceeds_MaxSize_add_record :
    (Write pf0 100 t1 (ascii "a") sink0).1 = .returned none ∧
      (Write pf0 100 t1 (ascii "a") sink0).2.sb.nbytes = 174 ∧
      ¬ ((Write pf0 100 t1 (ascii "a") sink0).2.sb.nbytes ≤ 100 + (ascii "a").length) := by
  decide

/-- Claim C3 (amended). In every state reached from `createFiles` by writes and daemon ticks,
with no system call failing, `Write(p)` returns nil and leaves the counter `nbytes` at
most `len(p)` above the larger of `MaxSize` and the length of the current file's header;
so `nbytes ≤ MaxSize + len(p)` whenever the header is no longer than `MaxSize`. -/
theorem nbytes_le_after_Write (pf : Platform) (MaxSize : Nat) (now : Time) (w : World)
    (ops : List Op) (t : Time) (p : List Byte) (hq : w.Quiet) :
    (Write pf MaxSize t p (run pf MaxSize ops (createFiles pf now w).2).2).1 = .returned none ∧
      ∃ h b f, OpenAt (Write pf MaxSize t p (run pf MaxSize ops (createFiles pf now w).2).2).2
          h b f ∧
        (Write pf MaxSize t p (run pf MaxSize ops (createFiles pf now w).2).2).2.sb.nbytes
          ≤ max MaxSize (header pf f.created).length + p.length := by
  obtain ⟨hI0⟩ := Inv_createFiles pf now w hq
  have hrun := run_invariant pf MaxSize (Inv pf w.files) (fun _ => True)
    (fun acc s op _ hI => Inv_step pf MaxSize w.files acc s op hI) ops [] _
    (fun _ _ => trivial) (Inv_createFiles pf now w hq).2
  obtain ⟨_, _, _, b, _, ho, _⟩ := hrun
  obtain ⟨hret, hcase⟩ := Write_quiet_cases pf MaxSize t p _ _ b _ ho
  refine ⟨hret, ?_⟩
  rcases hcase with ⟨hlt, hn, b1, x, ho1, _, _⟩ | ⟨_, hn, b1, x, ho1, _, _⟩
  · refine ⟨_, _, _, ho1, ?_⟩
    rw [hn]
    exact le_trans (le_of_lt hlt) (le_trans (le_max_left _ _) (Nat.le_add_right _ _))
  · refine ⟨_, _, _, ho1, ?_⟩
    rw [hn]
    show _ ≤ max MaxSize (header pf t).length + p.length
    have h1 := u64_le ((header pf t).length + p.length)
    have := Nat.le_max_right MaxSize (header pf t).length
    omega

theorem nbytes_le_after_Write_witness :
    w0.Quiet ∧
      (Write pf0 180 t4 (ascii "kl") (run pf0 180 ops0 (createFiles pf0 t0 w0).2).2).1
        = .returned none ∧
      ∃ h b f, OpenAt (Write pf0 180 t4 (ascii "kl")
          (run pf0 180 ops0 (createFiles pf0 t0 w0).2).2).2 h b f ∧
        (Write pf0 180 t4 (ascii "kl")
          (run pf0 180 ops0 (createFiles pf0 t0 w0).2).2).2.sb.nbytes
          ≤ max 180 (header pf0 f.created).length + (ascii "kl").length :=
  ⟨by decide, nbytes_le_after_Write pf0 180 t0 w0 ops0 t4 (ascii "kl") (by decide)⟩

/-- Claim C8. From `createFiles` in a world that holds the files `w.files`, with no system call
failing, after any sequence of writes (and daemon ticks) and a final `flushAll`: every
call has returned nil, nothing is left in the buffer, the world holds `w.files` followed
by the files the sink produced, each of these begins with its header, and their contents
with the headers removed, in creation order, are exactly the written byte strings one
after another. In particular the file sizes minus the header sizes add up to the number
of bytes written. -/
theorem no_record_lost_or_duplicated (pf : Platform) (MaxSize : Nat) (now : Time) (w : World)
    (ops : List Op) (hq : w.Quiet) :
    (createFiles pf now w).1 = .returned none ∧
      (run pf MaxSize ops (createFiles pf now w).2).1 = .returned none ∧
      (flushAll (run pf MaxSize ops (createFiles pf now w).2).2).1 = .returned none ∧
      (∀ k, (flushAll (run pf MaxSize ops (createFiles pf now w).2).2).2.buffered k = []) ∧
      ∃ produced,
        (flushAll (run pf MaxSize ops (createFiles pf now w).2).2).2.world.files
          = w.files ++ produced ∧
        (∀ g ∈ produced, g.Headed pf) ∧
        payload pf produced = (ops.map Op.bytes).flatten ∧
        (produced.map (fun g => g.data.length - (header pf g.created).length)).sum
          = ((ops.map Op.bytes).map List.length).sum := by
  obtain ⟨hret0, hI0⟩ := Inv_createFiles pf now w hq
  obtain ⟨hret1, hI1⟩ := run_invariant pf MaxSize (Inv pf w.files) (fun _ => True)
    (fun acc s op _ hI => Inv_step pf MaxSize w.files acc s op hI) ops [] _
    (fun _ _ => trivial) hI0
  obtain ⟨hret2, hI2, hbuf⟩ := Inv_flushAll pf w.files _ _ hI1
  obtain ⟨done, cur, b, hfiles, ho, hdone, hcur, hw⟩ := hI2
  have hb : b.buf = [] := by
    have := hbuf (w.files ++ done).length
    simpa [Sys.buffered, ho.writer, ho.wr] using this
  have hpay : payload pf (done ++ [cur]) = (ops.map Op.bytes).flatten := by
    rw [payload_append, payload_single]
    simpa [hb] using hw
  refine ⟨hret0, hret1, hret2, hbuf, done ++ [cur], by rw [hfiles, List.append_assoc], ?_,
    hpay, ?_⟩
  · intro g hg
    rcases List.mem_append.mp hg with hg1 | hg1
    · exact hdone g hg1
    · rw [List.mem_singleton.mp hg1]
      exact hcur
  · rw [← List.length_flatten, ← hpay]
    simp [payload, File.body, List.length_flatten, Function.comp_def]

theorem no_record_lost_or_duplicated_witness :
    w0.Quiet ∧
      (flushAll (run pf0 180 ops0 (createFiles pf0 t0 w0).2).2).2.world.files.length = 3 ∧
      payload pf0 (flushAll (run pf0 180 ops0 (createFiles pf0 t0 w0).2).2).2.world.files
        = ascii "abcdefghij" ∧
      ∃ produced,
        (flushAll (run pf0 180 ops0 (createFiles pf0 t0 w0).2).2).2.world.files
          = w0.files ++ produced ∧
        (∀ g ∈ produced, g.Headed pf0) ∧
        payload pf0 produced = (ops0.map Op.bytes).flatten ∧
        (produced.map (fun g => g.data.length - (header pf0 g.created).length)).sum
          = ((ops0.map Op.bytes).map List.length).sum :=
  ⟨by decide, by decide, by decide,
    (no_record_lost_or_duplicated pf0 180 t0 w0 ops0 (by decide)).2.2.2.2⟩

/-! ## The sink when system calls may fail -/

theorem nextFault_files (w : World) : w.nextFault.2.files = w.files := by
  unfold World.nextFault
  split <;> rfl

theorem nextFault_trace (w : World) : w.nextFault.2.trace = w.trace := by
  unfold World.nextFault
  split <;> rfl

theorem os_Write_length (w : World) (h : Nat) (bs : List Byte) :
    (os.Write w h bs).world.files.length = w.files.length := by
  unfold os.Write
  cases hf : w.files[h]? with
  | none => simp
  | some f =>
    cases hc : f.closed with
    | true => simp [hc]
    | false =>
      cases hn : w.nextFault.1 with
      | none => simp [hc, hn, nextFault_files]
      | some k => simp [hc, hn, nextFault_files]

/-- A file write that reports no error has appended all the bytes to an open file. -/
theorem os_Write_ok (w : World) (h : Nat) (bs : List Byte) (he : (os.Write w h bs).err = none) :
    ∃ f, w.files[h]? = some f ∧
      (os.Write w h bs).world.files = w.files.set h { f with data := f.data ++ bs } := by
  unfold os.Write at he ⊢
  cases hf : w.files[h]? with
  | none => simp [hf] at he
  | some f =>
    cases hc : f.closed with
    | true => simp [hf, hc] at he
    | false =>
      cases hn : w.nextFault.1 with
      | none => exact ⟨f, rfl, by simp [hc, hn, nextFault_files]⟩
      | some k => simp [hf, hc, hn] at he

theorem Flush_length (b : Writer) (w : World) :
    (b.Flush w).world.files.length = w.files.length := by
  unfold Writer.Flush
  cases hb : b.err with
  | some e => simp
  | none =>
    by_cases h0 : b.buf.length = 0
    · simp [h0]
    · simp only [h0, if_false]
      split <;> exact os_Write_length _ _ _

/-- A `Flush` that reports no error has moved the whole buffer to the end of its file. -/
theorem Flush_ok_files (b : Writer) (w : World) (f : File) (he : (b.Flush w).err = none)
    (hf : w.files[b.wr]? = some f) :
    (b.Flush w).world.files = w.files.set b.wr { f with data := f.data ++ b.buf } := by
  unfold Writer.Flush at he ⊢
  cases hb : b.err with
  | some e => simp [hb] at he
  | none =>
    by_cases h0 : b.buf.length = 0
    · have hnil : b.buf = [] := by simpa using h0
      simp only [h0, if_true]
      rw [hnil, List.append_nil]
      exact (set_getElem?_self _ _ _ hf).symm
    · simp only [hb, h0, if_false] at he ⊢
      cases hr : (os.Write w b.wr b.buf).err with
      | some e1 => simp [hr] at he
      | none =>
        obtain ⟨f1, hf1, hfiles⟩ := os_Write_ok _ _ _ hr
        have hn := os_Write_n_of_ok _ _ _ hr
        rw [hf] at hf1
        cases hf1
        simp only [hr, hn, lt_irrefl, false_and, if_false]
        exact hfiles

theorem os_Close_files (w : World) (h : Nat) (f : File) (hf : w.files[h]? = some f) :
    (os.Close w h).files = w.files.set h { f with closed := true } := by
  unfold os.Close
  simp [hf, nextFault_files]

theorem os_Close_length (w : World) (h : Nat) : (os.Close w h).files.length = w.files.length := by
  unfold os.Close
  cases hf : w.files[h]? with
  | none => rfl
  | some f => simp [nextFault_files]

theorem create_ok (tag : String) (t : Time) (w : World) (n : Nat)
    (hc : (create tag t w).1 = .ok n) :
    n = w.files.length ∧ (create tag t w).2.files = w.files ++ [File.new tag t] := by
  unfold create at hc ⊢
  cases hn : w.nextFault.1 with
  | some k => simp [hn] at hc
  | none =>
    simp only [hn] at hc ⊢
    cases hc
    exact ⟨by rw [nextFault_files], by simp [nextFault_files]⟩

theorem getElem?_set_grow (l : List File) (h : Nat) (f : File) (x : List Byte)
    (hf : l[h]? = some f) (j : Nat) :
    (l.set h { f with data := f.data ++ x })[j]?
      = (l[j]?).map (fun g => if j = h then { g with data := g.data ++ x } else g) := by
  by_cases hj : j = h
  · subst hj
    rw [getElem?_set_same _ _ _ _ hf, hf]
    simp
  · rw [getElem?_set_other _ _ _ _ hj]
    cases l[j]? with
    | none => rfl
    | some g => simp [hj]

theorem getElem?_grow_nil (l : List File) (h j : Nat) :
    l[j]? = (l[j]?).map (fun g => if j = h then { g with data := g.data ++ [] } else g) := by
  cases l[j]? with
  | none => rfl
  | some g =>
    by_cases hj : j = h
    · simp [hj]
    · simp [hj]

/-- What a file write leaves, whatever its result: the first `k` of the bytes are at the
end of the file written to, all of them when no error is reported, and no other file has
changed. -/
theorem os_Write_files (w : World) (h : Nat) (bs : List Byte) :
    ∃ k, k ≤ bs.length ∧ ((os.Write w h bs).err = none → k = bs.length) ∧
      ∀ j, (os.Write w h bs).world.files[j]?
        = (w.files[j]?).map
            (fun g => if j = h then { g with data := g.data ++ bs.take k } else g) := by
  cases hf : w.files[h]? with
  | none =>
    have hw : os.Write w h bs = ⟨0, some Error.fileClosed, w⟩ := by
      unfold os.Write
      simp [hf]
    rw [hw]
    exact ⟨0, Nat.zero_le _, (fun he => (by cases he)), fun j => getElem?_grow_nil w.files h j⟩
  | some f =>
    cases hc : f.closed with
    | true =>
      have hw : os.Write w h bs = ⟨0, some Error.fileClosed, w⟩ := by
        unfold os.Write
        simp [hf, hc]
      rw [hw]
      exact ⟨0, Nat.zero_le _, (fun he => (by cases he)), fun j => getElem?_grow_nil w.files h j⟩
    | false =>
      cases hn : w.nextFault.1 with
      | none =>
        have hw : (os.Write w h bs).world.files = w.files.set h { f with data := f.data ++ bs } := by
          unfold os.Write
          simp [hf, hc, hn, nextFault_files]
        refine ⟨bs.length, Nat.le_refl _, (fun _ => rfl), fun j => ?_⟩
        rw [hw, List.take_length]
        exact getElem?_set_grow w.files h f bs hf j
      | some k0 =>
        have hw : (os.Write w h bs).world.files
            = w.files.set h { f with data := f.data ++ bs.take (min k0 bs.length) } := by
          unfold os.Write
          simp [hf, hc, hn, nextFault_files]
        have he : (os.Write w h bs).err = some Error.writeFailed := by
          unfold os.Write
          simp [hf, hc, hn]
        refine ⟨min k0 bs.length, Nat.min_le_right _ _, (fun h1 => ?_), fun j => ?_⟩
        · rw [he] at h1
          cases h1
        · rw [hw]
          exact getElem?_set_grow w.files h f _ hf j

/-- What `Flush` leaves, whatever its result: the first `k` bytes of the buffer are at the
end of the writer's file, the whole buffer when no error is reported, and no other file
has changed. -/
theorem Flush_files (b : Writer) (w : World) :
    ∃ k, k ≤ b.buf.length ∧ ((b.Flush w).err = none → k = b.buf.length) ∧
      ∀ j, (b.Flush w).world.files[j]?
        = (w.files[j]?).map
            (fun g => if j = b.wr then { g with data := g.data ++ b.buf.take k } else g) := by
  cases hb : b.err with
  | some e =>
    have hfl : b.Flush w = { err := some e, writer := b, world := w } := by
      unfold Writer.Flush
      simp only [hb]
    rw [hfl]
    exact ⟨0, Nat.zero_le _, (fun he => (by cases he)),
      fun j => getElem?_grow_nil w.files b.wr j⟩
  | none =>
    by_cases h0 : b.buf.length = 0
    · have hfl : b.Flush w = { err := none, writer := b, world := w } := by
        unfold Writer.Flush
        simp only [hb, h0, if_true]
      rw [hfl]
      exact ⟨0, Nat.zero_le _, (fun _ => h0.symm), fun j => getElem?_grow_nil w.files b.wr j⟩
    · obtain ⟨k, hk, hall, hfiles⟩ := os_Write_files w b.wr b.buf
      have hworld : (b.Flush w).world = (os.Write w b.wr b.buf).world := by
        unfold Writer.Flush
        simp only [hb, h0, if_false]
        split <;> rfl
      have herr : (b.Flush w).err = none → (os.Write w b.wr b.buf).err = none := by
        intro he
        cases hr : (os.Write w b.wr b.buf).err with
        | none => rfl
        | some e =>
          unfold Writer.Flush at he
          simp [hb, h0, hr] at he
      rw [hworld]
      exact ⟨k, hk, fun he => hall (herr he), hfiles⟩

/-- What `closeCurrent` does to the file that was open: it is closed, and it holds what
it held followed by the part of the buffer that `Flush` wrote to it, the whole buffer when
`Flush` reported no error. -/
theorem closeCurrent_spec (s s1 : Sys) (hcl : closeCurrent s = some s1) :
    s1.world.files.length = s.world.files.length ∧
      (s.sb.file = none → s1 = s) ∧
      ∀ h b f, s.sb.file = some h → s.sb.Writer = some b → s.world.files[h]? = some f →
        ∃ k, k ≤ b.buf.length ∧ ((b.Flush s.world).err = none → k = b.buf.length) ∧
          s1.world.files[h]? =
            some { f with
              data := f.data ++ (if b.wr = h then b.buf.take k else [])
              closed := true } := by
  unfold closeCurrent at hcl
  cases hfile : s.sb.file with
  | none =>
    simp only [hfile] at hcl
    cases hcl
    exact ⟨rfl, (fun _ => rfl), (fun h b f hh => (by cases hh))⟩
  | some h0 =>
    cases hw : s.sb.Writer with
    | none => simp [hfile, hw] at hcl
    | some b0 =>
      simp only [hfile, hw] at hcl
      cases hcl
      refine ⟨(by simp [os_Close_length, Flush_length]), (fun hh => (by cases hh)), ?_⟩
      intro h b f hh hb hf
      obtain rfl : h0 = h := Option.some.inj hh
      obtain rfl : b0 = b := Option.some.inj hb
      obtain ⟨k, hk, hall, hfiles⟩ := Flush_files b0 s.world
      have hg : (b0.Flush s.world).world.files[h0]? =
          some { f with data := f.data ++ (if b0.wr = h0 then b0.buf.take k else []) } := by
        rw [hfiles h0, hf]
        by_cases hwr : b0.wr = h0
        · simp [hwr]
        · have hne : ¬ h0 = b0.wr := fun e => hwr e.symm
          simp [hwr, hne]
      refine ⟨k, hk, hall, ?_⟩
      show (os.Close _ h0).files[h0]? = _
      rw [os_Close_files _ _ _ hg]
      exact getElem?_set_same _ _ _ _ hg

/-- A rotation that returns nil has closed the current file, created a file and written
the whole header to it. -/
theorem rotateFile_ok (pf : Platform) (now : Time) (s : Sys)
    (hret : (rotateFile pf now s).1 = .returned none) :
    ∃ s1, closeCurrent s = some s1 ∧
      (rotateFile pf now s).2.sb =
        { Writer := some (NewWriterSize s1.world.files.length bufferSize),
          file := some s1.world.files.length, nbytes := u64 (header pf now).length } ∧
      (rotateFile pf now s).2.world.files = s1.world.files ++ [freshFile pf now] := by
  unfold rotateFile at hret ⊢
  cases hcl : closeCurrent s with
  | none => simp [hcl] at hret
  | some s1 =>
    simp only [hcl] at hret ⊢
    cases hc : (create "INFO" now s1.world).1 with
    | error e => simp [hc] at hret
    | ok n =>
      simp only [hc] at hret ⊢
      obtain ⟨hn, hfiles⟩ := create_ok _ _ _ _ hc
      subst hn
      have herr : (os.Write (create "INFO" now s1.world).2 s1.world.files.length
          (header pf now)).err = none := by
        simpa using hret
      obtain ⟨g, hg, hfiles1⟩ := os_Write_ok _ _ _ herr
      have hcount := os_Write_n_of_ok _ _ _ herr
      rw [hfiles, getElem?_append_new] at hg
      cases hg
      refine ⟨s1, rfl, by simp [hcount], ?_⟩
      rw [hfiles1, hfiles, set_append_new]
      simp [File.new, freshFile]

/-- After a rotation, whatever its result, a sink that has a file has a writer. -/
theorem rotateFile_attached (pf : Platform) (now : Time) (s : Sys) (e : Option Error)
    (hret : (rotateFile pf now s).1 = .returned e) : (rotateFile pf now s).2.Attached := by
  unfold rotateFile at hret ⊢
  cases hcl : closeCurrent s with
  | none => simp [hcl] at hret
  | some s1 =>
    simp only [hcl]
    cases hc : (create "INFO" now s1.world).1 with
    | error e1 => exact fun hne => absurd rfl hne
    | ok n => exact fun _ hw => by cases hw

theorem flushAll_returns (s : Sys) (ha : s.Attached) : (flushAll s).1 = .returned none := by
  unfold flushAll
  cases hfile : s.sb.file with
  | none => rfl
  | some h =>
    cases hw : s.sb.Writer with
    | none => exact absurd hw (ha (by simp [hfile]))
    | some b => rfl

theorem flushAndExit_eq (s : Sys) (ha : s.Attached) :
    flushAndExit s = (.exited 2, (flushAll s).2) := by
  have h := flushAll_returns s ha
  unfold flushAndExit
  generalize flushAll s = r at h
  obtain ⟨o, s1⟩ := r
  simp only at h
  subst h
  rfl

theorem flushAll_nbytes (s : Sys) : (flushAll s).2.sb.nbytes = s.sb.nbytes := by
  unfold flushAll
  cases hfile : s.sb.file with
  | none => rfl
  | some h =>
    cases hw : s.sb.Writer with
    | none => rfl
    | some b => rfl

theorem flushAll_file (s : Sys) : (flushAll s).2.sb.file = s.sb.file := by
  unfold flushAll
  cases hfile : s.sb.file with
  | none => simp [hfile]
  | some h =>
    cases hw : s.sb.Writer with
    | none => simp [hfile]
    | some b => simp [hfile]

/-! ## The claims about rotation, failures and flushing -/

/-- Claim C5, as stated, fails: on `sinkShortFlush`, whose file `0` holds the header and
whose buffer holds `abc`, the flush inside `rotateFile` writes one byte and fails, its
error is ignored, and `rotateFile` returns nil. The file that was open is closed holding
the header and `a` only; `bc` is in no file, and the new writer's buffer is empty. -/
theorem rotateFile_nil_after_failed_flush :
    sinkShortFlush.sb.file = some 0 ∧
      sinkShortFlush.content 0 = header pf0 t0 ++ ascii "abc" ∧
      (rotateFile pf0 t2 sinkShortFlush).1 = .returned none ∧
      (rotateFile pf0 t2 sinkShortFlush).2.world.files.map File.data
        = [header pf0 t0 ++ ascii "a", header pf0 t2] ∧
      (rotateFile pf0 t2 sinkShortFlush).2.world.files.map File.closed = [true, false] ∧
      (rotateFile pf0 t2 sinkShortFlush).2.sb.Writer = some (NewWriterSize 1 bufferSize) ∧
      (rotateFile pf0 t2 sinkShortFlush).2.content 0 ≠ sinkShortFlush.content 0 := by
  decide

/-- Claim C5 (amended). A `rotateFile(now)` that returns nil, from any state: `Flush` and
`Close` have been called on the file that was open, their errors ignored; that file is
closed afterwards and holds what it held followed by the first `k` bytes of the buffer,
those `Flush` wrote, which is the whole buffer when `Flush` reported no error (the rest of
the buffer is dropped with the old writer); a newly created file, the last one of the
world, is current, and the writer is a fresh one on it with an empty buffer; that file
holds exactly the header (the four lines: creation time in the layout
`2006/01/02 15:04:05`, host, compiler, version, OS and architecture, line format); and
`nbytes` is the `uint64` length of the header, whatever it was before. -/
theorem rotateFile_success (pf : Platform) (now : Time) (s : Sys)
    (hret : (rotateFile pf now s).1 = .returned none) :
    (rotateFile pf now s).2.sb.file = some s.world.files.length ∧
      (rotateFile pf now s).2.sb.Writer = some (NewWriterSize s.world.files.length bufferSize) ∧
      (∀ k, (rotateFile pf now s).2.buffered k = []) ∧
      (rotateFile pf now s).2.world.files.length = s.world.files.length + 1 ∧
      (rotateFile pf now s).2.world.files[s.world.files.length]?
        = some { tag := "INFO", created := now, data := header pf now, closed := false } ∧
      header pf now =
        (ascii "Log file created at: " ++ now.Format ++ ascii "\n")
          ++ (ascii "Running on machine: " ++ pf.host ++ ascii "\n")
          ++ (ascii "Binary: Built with " ++ pf.compiler ++ ascii " " ++ pf.version
                ++ ascii " for " ++ pf.goos ++ ascii "/" ++ pf.goarch ++ ascii "\n")
          ++ ascii "Log line format: [IWEF]mmdd hh:mm:ss.uuuuuu threadid file:line] msg\n" ∧
      (rotateFile pf now s).2.sb.nbytes = (header pf now).length % 2 ^ 64 ∧
      ∀ h b f, s.sb.file = some h → s.sb.Writer = some b → s.world.files[h]? = some f →
        ∃ k, k ≤ b.buf.length ∧ ((b.Flush s.world).err = none → k = b.buf.length) ∧
          (rotateFile pf now s).2.world.files[h]? =
            some { f with
              data := f.data ++ (if b.wr = h then b.buf.take k else [])
              closed := true } := by
  obtain ⟨s1, hcl, hsb, hfiles⟩ := rotateFile_ok pf now s hret
  obtain ⟨hlen, _, hold⟩ := closeCurrent_spec s s1 hcl
  rw [hlen] at hsb
  refine ⟨by rw [hsb], by rw [hsb], fun k => ?_, ?_, ?_, rfl, by rw [hsb]; rfl, ?_⟩
  · simp only [Sys.buffered, hsb, NewWriterSize]
    split <;> rfl
  · rw [hfiles, List.length_append, hlen]
    rfl
  · rw [hfiles, ← hlen]
    exact getElem?_append_new _ _
  · intro h b f hh hb hf
    obtain ⟨k, hk, hall, hf1⟩ := hold h b f hh hb hf
    refine ⟨k, hk, hall, ?_⟩
    rw [hfiles, List.getElem?_append_left, hf1]
    by_contra hge
    rw [List.getElem?_eq_none (by omega)] at hf1
    cases hf1

theorem rotateFile_success_witness :
    (rotateFile pf0 t2 sinkABC).1 = .returned none ∧
      header pf0 t2 = ascii ("Log file created at: 2024/03/05 07:09:00\n"
        ++ "Running on machine: h\nBinary: Built with gc go1 for linux/amd64\n"
        ++ "Log line format: [IWEF]mmdd hh:mm:ss.uuuuuu threadid file:line] msg\n") ∧
      (rotateFile pf0 t2 sinkABC).2.sb.file = some sinkABC.world.files.length ∧
      (rotateFile pf0 t2 sinkABC).2.sb.nbytes = (header pf0 t2).length % 2 ^ 64 ∧
      (rotateFile pf0 t2 sinkABC).2.world.files.map File.data
        = [header pf0 t0 ++ ascii "abc", header pf0 t2] :=
  ⟨by decide, by decide, (rotateFile_success pf0 t2 sinkABC (by decide)).1,
    (rotateFile_success pf0 t2 sinkABC (by decide)).2.2.2.2.2.2.1, by decide⟩

/-- Claim C6, as stated, fails: on `sinkCreateFails` with `MaxSize = 100` the threshold is
reached and the rotation fails with `createFailed`, but `Write` does not return that
error to its caller: it terminates the process with exit status 2. -/
theorem Write_does_not_return_rotation_error :
    100 ≤ u64 (sinkCreateFails.sb.nbytes + (ascii "abc").length) ∧
      (rotateFile pf0 t1 sinkCreateFails).1 = .returned (some Error.createFailed) ∧
      (Write pf0 100 t1 (ascii "abc") sinkCreateFails).1 = .exited 2 ∧
      (Write pf0 100 t1 (ascii "abc") sinkCreateFails).1
        ≠ .returned (some Error.createFailed) := by
  decide

/-- Claim C6 (amended). When the `uint64` sum `nbytes + len(p)` reaches `MaxSize` and the
rotation that `Write(p)` performs fails with an error, `Write` does not return: it
performs `flushAll` on the state the rotation has left and terminates the process with
exit status 2. -/
theorem Write_exits_on_rotation_failure (pf : Platform) (MaxSize : Nat) (now : Time)
    (p : List Byte) (s : Sys) (e : Error)
    (hge : MaxSize ≤ u64 (s.sb.nbytes + p.length))
    (hrot : (rotateFile pf now s).1 = .returned (some e)) :
    (Write pf MaxSize now p s).1 = .exited 2 ∧
      (Write pf MaxSize now p s).2 = (flushAll (rotateFile pf now s).2).2 := by
  have ha := rotateFile_attached pf now s _ hrot
  have hfe := flushAndExit_eq _ ha
  unfold Write rotationCheck
  rw [u64_add_u64]
  simp only [ge_iff_le, hge, if_true]
  generalize rotateFile pf now s = r at hrot hfe
  obtain ⟨o, s1⟩ := r
  simp only at hrot
  subst hrot
  simp only [hfe]
  exact ⟨trivial, trivial⟩

theorem Write_exits_on_rotation_failure_witness :
    100 ≤ u64 (sinkCreateFails.sb.nbytes + (ascii "abc").length) ∧
      (rotateFile pf0 t1 sinkCreateFails).1 = .returned (some Error.createFailed) ∧
      (Write pf0 100 t1 (ascii "abc") sinkCreateFails).1 = .exited 2 ∧
      (Write pf0 100 t1 (ascii "abc") sinkCreateFails).2
        = (flushAll (rotateFile pf0 t1 sinkCreateFails).2).2 :=
  ⟨by decide, by decide,
    Write_exits_on_rotation_failure pf0 100 t1 (ascii "abc") sinkCreateFails
      Error.createFailed (by decide) (by decide)⟩

theorem flushAndExit_ne_returned (s : Sys) (e : Option Error) :
    (flushAndExit s).1 ≠ .returned e := by
  unfold flushAndExit
  split <;> simp

theorem rotationCheck_stop (pf : Platform) (MaxSize : Nat) (now : Time) (p : List Byte)
    (s : Sys) (r : Outcome × Sys) (hstop : rotationCheck pf MaxSize now p s = .error r)
    (e : Error) : r.1 ≠ .returned (some e) := by
  unfold rotationCheck at hstop
  by_cases hge : u64 (s.sb.nbytes + u64 p.length) ≥ MaxSize
  · simp only [hge, if_true] at hstop
    generalize rotateFile pf now s = r1 at hstop
    obtain ⟨o, s1⟩ := r1
    cases o with
    | returned err =>
      cases err with
      | none => simp at hstop
      | some e1 =>
        simp only [Except.error.injEq] at hstop
        rw [← hstop]
        exact flushAndExit_ne_returned s1 _
    | exited c =>
      simp only [Except.error.injEq] at hstop
      rw [← hstop]
      simp
    | panicked =>
      simp only [Except.error.injEq] at hstop
      rw [← hstop]
      simp
  · simp [hge] at hstop

theorem bufferedWrite_ne_returned_error (p : List Byte) (s : Sys) (e : Error) :
    (bufferedWrite p s).1 ≠ .returned (some e) := by
  unfold bufferedWrite
  cases hw : s.sb.Writer with
  | none => simp
  | some b =>
    simp only
    cases hr : (b.Write s.world p).err with
    | none => simp
    | some e1 => exact flushAndExit_ne_returned _ _

theorem Write_of_check (pf : Platform) (MaxSize : Nat) (now : Time) (p : List Byte)
    (s s1 : Sys) (hcheck : rotationCheck pf MaxSize now p s = .ok s1) :
    Write pf MaxSize now p s = bufferedWrite p s1 := by
  unfold Write
  rw [hcheck]

/-- Claim C7. `Write` never returns a non-nil error. And when the buffered write of `p`, made in
the state `s1` that the rotation check leaves, reports an error after accepting `n`
bytes, `Write` adds `n` to `nbytes` (as a `uint64`), performs `flushAll` on that state
and terminates the process with exit status 2. -/
theorem Write_fatal_on_write_error (pf : Platform) (MaxSize : Nat) (now : Time)
    (p : List Byte) (s : Sys) :
    (∀ e, (Write pf MaxSize now p s).1 ≠ .returned (some e)) ∧
      ∀ s1 b e, rotationCheck pf MaxSize now p s = .ok s1 → s1.sb.Writer = some b →
        (b.Write s1.world p).err = some e →
        (Write pf MaxSize now p s).1 = .exited 2 ∧
        (Write pf MaxSize now p s).2 =
          (flushAll
            { sb := { s1.sb with
                        Writer := some (b.Write s1.world p).writer
                        nbytes := u64 (s1.sb.nbytes + (b.Write s1.world p).n) },
              world := (b.Write s1.world p).world }).2 ∧
        (Write pf MaxSize now p s).2.sb.nbytes = u64 (s1.sb.nbytes + (b.Write s1.world p).n) := by
  constructor
  · intro e
    cases hcheck : rotationCheck pf MaxSize now p s with
    | error r =>
      have hstop := rotationCheck_stop pf MaxSize now p s r hcheck e
      unfold Write
      rw [hcheck]
      exact hstop
    | ok s1 =>
      rw [Write_of_check pf MaxSize now p s s1 hcheck]
      exact bufferedWrite_ne_returned_error p s1 e
  · intro s1 b e hcheck hw herr
    rw [Write_of_check pf MaxSize now p s s1 hcheck]
    have hbw : bufferedWrite p s1 = flushAndExit
        { sb := { s1.sb with
                    Writer := some (b.Write s1.world p).writer
                    nbytes := u64 (s1.sb.nbytes + (b.Write s1.world p).n) },
          world := (b.Write s1.world p).world } := by
      unfold bufferedWrite
      simp only [hw, herr, u64_add_u64]
    rw [hbw, flushAndExit_eq _ (fun _ hn => by cases hn)]
    exact ⟨rfl, rfl, flushAll_nbytes _⟩

theorem Write_fatal_on_write_error_witness :
    rotationCheck pf0 1000 t2 (ascii "d") sinkStuck = .ok sinkStuck ∧
      sinkStuck.sb.Writer = some stuckWriter ∧
      (stuckWriter.Write sinkStuck.world (ascii "d")).err = some Error.writeFailed ∧
      (Write pf0 1000 t2 (ascii "d") sinkStuck).1 = .exited 2 :=
  ⟨rfl, by decide, by decide,
    ((Write_fatal_on_write_error pf0 1000 t2 (ascii "d") sinkStuck).2 sinkStuck stuckWriter
      Error.writeFailed rfl (by decide) (by decide)).1⟩

theorem os_Sync_files (w : World) (h : Nat) : (os.Sync w h).files = w.files := by
  unfold os.Sync
  exact nextFault_files w

theorem flushAll_attached (s : Sys) (ha : s.Attached) : (flushAll s).2.Attached := by
  unfold flushAll
  cases hfile : s.sb.file with
  | none => exact fun hne => absurd hfile hne
  | some h =>
    cases hw : s.sb.Writer with
    | none => exact absurd hw (ha (by simp [hfile]))
    | some b => exact fun _ hn => by cases hn

theorem flushDaemon_spec (n : Nat) (s : Sys) (ha : s.Attached) :
    (flushDaemon n s).1 = .returned none ∧ (flushDaemon n s).2.sb.nbytes = s.sb.nbytes ∧
      (flushDaemon n s).2.sb.file = s.sb.file := by
  induction n generalizing s with
  | zero => exact ⟨rfl, rfl, rfl⟩
  | succ k ih =>
    have hret := flushAll_returns s ha
    have hstep : flushDaemon (k + 1) s = flushDaemon k (flushAll s).2 := by
      show (match lockAndFlushAll s with
        | (.returned _, s1) => flushDaemon k s1
        | r => r) = _
      unfold lockAndFlushAll
      generalize flushAll s = r at hret
      obtain ⟨o, s1⟩ := r
      simp only at hret
      subst hret
      rfl
    rw [hstep]
    obtain ⟨h1, h2, h3⟩ := ih (flushAll s).2 (flushAll_attached s ha)
    exact ⟨h1, h2.trans (flushAll_nbytes s), h3.trans (flushAll_file s)⟩

/-- The daemon after `n` ticks has run `lockAndFlushAll` `n` times, one after another,
and is still running. -/
theorem flushDaemon_iterate (n : Nat) (s : Sys) (ha : s.Attached) :
    flushDaemon n s = (.returned none, Nat.iterate (fun t => (lockAndFlushAll t).2) n s) := by
  induction n generalizing s with
  | zero => rfl
  | succ k ih =>
    have hret := flushAll_returns s ha
    have hstep : flushDaemon (k + 1) s = flushDaemon k (lockAndFlushAll s).2 := by
      show (match lockAndFlushAll s with
        | (.returned _, s1) => flushDaemon k s1
        | r => r) = _
      unfold lockAndFlushAll
      generalize flushAll s = r at hret
      obtain ⟨o, s1⟩ := r
      simp only at hret
      subst hret
      rfl
    rw [hstep, Function.iterate_succ_apply]
    exact ih (lockAndFlushAll s).2 (flushAll_attached s ha)

theorem flushAndExit_state (s : Sys) : (flushAndExit s).2 = (flushAll s).2 := by
  unfold flushAndExit
  split <;> simp_all

theorem rotateFile_keeps_attached (pf : Platform) (now : Time) (s : Sys) (ha : s.Attached) :
    (rotateFile pf now s).2.Attached := by
  unfold rotateFile
  cases hcl : closeCurrent s with
  | none => exact ha
  | some s1 =>
    simp only
    cases hc : (create "INFO" now s1.world).1 with
    | error e1 => exact fun hne => absurd rfl hne
    | ok n => exact fun _ hw => by cases hw

theorem bufferedWrite_attached (p : List Byte) (s : Sys) (ha : s.Attached) :
    (bufferedWrite p s).2.Attached := by
  unfold bufferedWrite
  cases hw : s.sb.Writer with
  | none => exact ha
  | some b =>
    simp only
    cases hr : (b.Write s.world p).err with
    | none => exact fun _ hn => by cases hn
    | some e =>
      simp only
      rw [flushAndExit_state]
      exact flushAll_attached _ (fun _ hn => by cases hn)

theorem Write_attached (pf : Platform) (MaxSize : Nat) (now : Time) (p : List Byte) (s : Sys)
    (ha : s.Attached) : (Write pf MaxSize now p s).2.Attached := by
  have hrot := rotateFile_keeps_attached pf now s ha
  unfold Write rotationCheck
  by_cases hge : u64 (s.sb.nbytes + u64 p.length) ≥ MaxSize
  · simp only [hge, if_true]
    generalize rotateFile pf now s = r at hrot
    obtain ⟨o, s1⟩ := r
    cases o with
    | returned err =>
      cases err with
      | none => exact bufferedWrite_attached p s1 hrot
      | some e1 =>
        show (flushAndExit s1).2.Attached
        rw [flushAndExit_state]
        exact flushAll_attached s1 hrot
    | exited c => exact hrot
    | panicked => exact hrot
  · simp only [hge, if_false]
    exact bufferedWrite_attached p s ha

/-- Every state that `createFiles`, writes and daemon ticks lead to, whatever the system
calls do, has a writer whenever it has a file. -/
theorem run_attached (pf : Platform) (MaxSize : Nat) (ops : List Op) (s : Sys)
    (ha : s.Attached) : (run pf MaxSize ops s).2.Attached := by
  induction ops generalizing s with
  | nil => exact ha
  | cons op ops ih =>
    have hstep : (step pf MaxSize op s).2.Attached := by
      cases op with
      | write now p => exact Write_attached pf MaxSize now p s ha
      | tick => exact flushAll_attached s ha
    show (match step pf MaxSize op s with
      | (.returned none, s1) => run pf MaxSize ops s1
      | r => r).2.Attached
    generalize step pf MaxSize op s = r at hstep
    obtain ⟨o, s1⟩ := r
    cases o with
    | returned err =>
      cases err with
      | none => exact ih s1 hstep
      | some e => exact hstep
    | exited c => exact hstep
    | panicked => exact hstep

theorem createFiles_attached (pf : Platform) (now : Time) (w : World) :
    (createFiles pf now w).2.Attached := by
  have h := rotateFile_keeps_attached pf now
    { sb := { Writer := none, file := none, nbytes := 0 }, world := w } (fun hne => absurd rfl hne)
  unfold createFiles
  generalize rotateFile pf now { sb := { Writer := none, file := none, nbytes := 0 }, world := w }
    = r at h
  obtain ⟨o, s1⟩ := r
  cases o with
  | returned err =>
    cases err with
    | none => exact h
    | some e => exact h
  | exited c => exact h
  | panicked => exact h

/-- Claim C9. The method `flushAll` is best-effort. On every state in which the writer is
there whenever a file is, and whatever the system calls do, it returns normally, and it
leaves `nbytes` and the file handle as they were. With no file open it makes no system
call and changes nothing. With a file open it calls `Flush` and then `Sync`, the last
system call of the trace, which leaves the files as `Flush` left them; and when `Flush`
reports no error the buffer is empty and its bytes are at the end of the writer's file.
The method `lockAndFlushAll` is the same function, and it is the action of every tick of
the daemon: one tick of `flushDaemon` is `lockAndFlushAll`, a further tick runs it on the
state the ticks before have left, and `n` ticks are `n` runs of it, none of which stops
the daemon or changes `nbytes` or the file handle. -/
theorem flushAll_best_effort (s : Sys) (ha : s.Attached) :
    (flushAll s).1 = .returned none ∧
      (flushAll s).2.sb.nbytes = s.sb.nbytes ∧
      (flushAll s).2.sb.file = s.sb.file ∧
      (s.sb.file = none → (flushAll s).2 = s) ∧
      (∀ h b, s.sb.file = some h → s.sb.Writer = some b →
        (flushAll s).2.sb.Writer = some (b.Flush s.world).writer ∧
        (flushAll s).2.world.files = (b.Flush s.world).world.files ∧
        (∃ ok, (flushAll s).2.world.trace
          = (b.Flush s.world).world.trace ++ [Event.sync h ok]) ∧
        ((b.Flush s.world).err = none →
          (∀ k, (flushAll s).2.buffered k = []) ∧
          ∀ f, s.world.files[b.wr]? = some f →
            (flushAll s).2.world.files
              = s.world.files.set b.wr { f with data := f.data ++ b.buf })) ∧
      lockAndFlushAll s = flushAll s ∧
      (∀ n, (flushDaemon n s).1 = .returned none ∧
        (flushDaemon n s).2.sb.nbytes = s.sb.nbytes ∧
        (flushDaemon n s).2.sb.file = s.sb.file) ∧
      flushDaemon 1 s = lockAndFlushAll s ∧
      (∀ n, flushDaemon (n + 1) s = flushDaemon n (lockAndFlushAll s).2) ∧
      (∀ n, flushDaemon n s
        = (.returned none, Nat.iterate (fun t => (lockAndFlushAll t).2) n s)) := by
  have hone : flushDaemon 1 s = lockAndFlushAll s := by
    have hret := flushAll_returns s ha
    show (match lockAndFlushAll s with
      | (.returned _, s1) => flushDaemon 0 s1
      | r => r) = _
    unfold lockAndFlushAll
    generalize flushAll s = r at hret
    obtain ⟨o, s1⟩ := r
    simp only at hret
    subst hret
    rfl
  have hsucc : ∀ n, flushDaemon (n + 1) s = flushDaemon n (lockAndFlushAll s).2 := by
    intro n
    rw [flushDaemon_iterate (n + 1) s ha, Function.iterate_succ_apply]
    exact (flushDaemon_iterate n (lockAndFlushAll s).2 (flushAll_attached s ha)).symm
  refine ⟨flushAll_returns s ha, flushAll_nbytes s, flushAll_file s, ?_, ?_, rfl,
    fun n => flushDaemon_spec n s ha, hone, hsucc, fun n => flushDaemon_iterate n s ha⟩
  · intro hfile
    unfold flushAll
    simp only [hfile]
  · intro h b hfile hw
    have hfl : (flushAll s).2 =
        { sb := { s.sb with Writer := some (b.Flush s.world).writer },
          world := os.Sync (b.Flush s.world).world h } := by
      unfold flushAll
      simp only [hfile, hw]
    rw [hfl]
    refine ⟨rfl, os_Sync_files _ _, ⟨(b.Flush s.world).world.nextFault.1.isNone, ?_⟩,
      fun he => ⟨fun k => ?_, fun f hf => ?_⟩⟩
    · show (os.Sync _ h).trace = _
      unfold os.Sync
      simp only [nextFault_trace]
    · simp only [Sys.buffered, Flush_buf_of_ok b s.world he]
      split <;> rfl
    · show (os.Sync _ h).files = _
      rw [os_Sync_files]
      exact Flush_ok_files b s.world f he hf

theorem flushAll_best_effort_witness :
    sinkFaulty.Attached ∧ (flushAll sinkFaulty).1 = .returned none ∧
      (flushAll sinkFaulty).2.sb.nbytes = sinkFaulty.sb.nbytes ∧
      (flushAll sinkFaulty).2.world.trace
        = sinkFaulty.world.trace ++ [Event.write 0 1 false, Event.sync 0 false] ∧
      flushDaemon 1 sinkFaulty = lockAndFlushAll sinkFaulty ∧
      (flushDaemon 1 sinkFaulty).2.world.files.map File.data = [header pf0 t0 ++ ascii "a"] ∧
      sinkABC.world.files.map File.data = [header pf0 t0] ∧
      (flushDaemon 2 sinkABC).2.world.files.map File.data = [header pf0 t0 ++ ascii "abc"] ∧
      (flushDaemon 2 sinkABC).2.world.trace
        = sinkABC.world.trace ++ [Event.write 0 3 true, Event.sync 0 true, Event.sync 0 true] :=
  ⟨by decide, (flushAll_best_effort sinkFaulty (by decide)).1,
    (flushAll_best_effort sinkFaulty (by decide)).2.1, by decide,
    (flushAll_best_effort sinkFaulty (by decide)).2.2.2.2.2.2.2.1, by decide, by decide,
    by decide, by decide⟩

end Logging
